import Mathlib

/-!
Checkout kata: pricing rules, discount strategies and checkout sessions.

A shallow embedding of `main.go`.

* Go `map[string]V` is an association list with pairwise distinct keys
  (`AList`); `m[k] = v` is `AList.insert`, the comma-ok lookup is
  `AList.lookup`. The order in which `range` visits a map is not fixed by Go,
  so the loop of `GetTotal` is embedded over an explicit visiting order and the
  theorems quantify over every permutation of the map's entries.
* `float64` amounts are rationals and `GetTotal` adds them exactly, which is what
  the statements in exact arithmetic are about. Next to it `GetTotalF64Visiting`
  runs the same loop with every operation rounded to the nearest `float64`
  (`F64.round`); there the total depends on the order in which the counts are
  visited.
* Go `int` is `Int`; `/` on `int` truncates toward zero (`Int.tdiv`) and
  panics on a zero divisor, so `ApplyDiscount` and `GetTotal` return an
  `Option`, `none` standing for the run-time panic. The counter increment of
  `Scan` is embedded without wrap-around: leaving the range of `int` takes
  `2 ^ 63` scans of one code.
* Go `error` is `Option String` (`none` is `nil`); a method with a pointer
  receiver that mutates returns the new state next to its result.
* The interface `DiscountApplier` is the sum of its two implementations.
-/

namespace CheckoutKata

/-- Go `map[string]V`. -/
abbrev GoMap (V : Type) : Type := AList (fun _ : String => V)

/-- Item is the representation of a product in the inventory. -/
structure Item where
  Code : String
  Name : String
  Price : ℚ
deriving DecidableEq

/-- GetFreeUnitDiscount is a "Buy X -> get Y Free units" discount. -/
structure GetFreeUnitDiscount where
  Buy : Int
  Free : Int
deriving DecidableEq

/-- LessPriceDiscount is a "fixed lower prices after buying X units" discount. -/
structure LessPriceDiscount where
  Buy : Int
  Price : ℚ
deriving DecidableEq

/-- `GetFreeUnitDiscount.ApplyDiscount`: `free := int(n / gfud.Buy)`,
`discount := float64(free) * price`. Integer division by zero panics. -/
def GetFreeUnitDiscount.ApplyDiscount (gfud : GetFreeUnitDiscount) (n : Int) (price : ℚ) :
    Option ℚ :=
  if gfud.Buy = 0 then none
  else
    let free : Int := Int.tdiv n gfud.Buy
    let discount : ℚ := (free : ℚ) * price
    some discount

/-- `LessPriceDiscount.ApplyDiscount`: `discount := 0.0`, overwritten by
`(price - lpd.Price) * float64(n)` when `n >= lpd.Buy`. -/
def LessPriceDiscount.ApplyDiscount (lpd : LessPriceDiscount) (n : Int) (price : ℚ) :
    Option ℚ :=
  let discount : ℚ := 0
  let discount : ℚ := if n ≥ lpd.Buy then (price - lpd.Price) * (n : ℚ) else discount
  some discount

/-- DiscountApplier is the common interface of the discount implementations. -/
inductive DiscountApplier where
  | getFreeUnit (gfud : GetFreeUnitDiscount)
  | lessPrice (lpd : LessPriceDiscount)
deriving DecidableEq

/-- Dynamic dispatch of `ApplyDiscount` through the interface. -/
def DiscountApplier.ApplyDiscount (d : DiscountApplier) (n : Int) (price : ℚ) : Option ℚ :=
  match d with
  | .getFreeUnit gfud => gfud.ApplyDiscount n price
  | .lessPrice lpd => lpd.ApplyDiscount n price

/-- PricingRules is the complete inventory plus special discounts. -/
structure PricingRules where
  products : GoMap Item
  discounts : GoMap DiscountApplier

/-- NewPricingRules builds a PricingRules with two empty maps. -/
def NewPricingRules : PricingRules :=
  { products := ∅, discounts := ∅ }

/-- `PricingRules.Add`: the loop over `items`, returning at the first item whose
code is already a key of `products`. -/
def PricingRules.Add (pr : PricingRules) : List Item → PricingRules × Option String
  | [] => (pr, none)
  | item :: items =>
    match pr.products.lookup item.Code with
    | none => PricingRules.Add { pr with products := pr.products.insert item.Code item } items
    | some _ => (pr, some ("item " ++ item.Code ++ " already exists"))

/-- `PricingRules.RegisterDiscount`. -/
def PricingRules.RegisterDiscount (pr : PricingRules) (code : String) (d : DiscountApplier) :
    PricingRules × Option String :=
  match pr.products.lookup code with
  | none => (pr, some ("item " ++ code ++ " does not exists"))
  | some _ =>
    match pr.discounts.lookup code with
    | some _ => (pr, some ("discount for item " ++ code ++ " already exists"))
    | none => ({ pr with discounts := pr.discounts.insert code d }, none)

/-- Checkout holds rules and products (the scanned count per code). -/
structure Checkout where
  pricingRules : PricingRules
  products : GoMap Int

/-- NewCheckout creates a Checkout over `pr` with an empty count map. -/
def NewCheckout (pr : PricingRules) : Checkout :=
  { pricingRules := pr, products := ∅ }

/-- `Checkout.getPrice`: the price of the stored item, the zero value of `Item`
(price `0`) when the code is missing. -/
def Checkout.getPrice (c : Checkout) (code : String) : ℚ :=
  match c.pricingRules.products.lookup code with
  | some product => product.Price
  | none => 0

/-- `Checkout.Scan`: an error for a code outside the inventory, otherwise
`c.products[code]++` (a missing entry reads as `0`). -/
def Checkout.Scan (c : Checkout) (code : String) : Checkout × Option String :=
  match c.pricingRules.products.lookup code with
  | none => (c, some ("item " ++ code ++ " does not exists in inventory"))
  | some _ =>
    ({ c with products := c.products.insert code ((c.products.lookup code).getD 0 + 1) }, none)

/-- One iteration of the loop of `GetTotal` for the entry `code, amount`:
`total += float64(amount) * price`, then the discount, when one is registered,
is subtracted. -/
def Checkout.totalStep (c : Checkout) (total : ℚ) (code : String) (amount : Int) : Option ℚ :=
  let price := c.getPrice code
  let total := total + (amount : ℚ) * price
  match c.pricingRules.discounts.lookup code with
  | some discount =>
    match discount.ApplyDiscount amount price with
    | some amountDiscount => some (total - amountDiscount)
    | none => none
  | none => some total

/-- The loop of `GetTotal` run from `total` over the entries `visit`, in that
order; a panic in an iteration ends the run. -/
def Checkout.totalLoop (c : Checkout) (total : ℚ) : List (Sigma fun _ : String => Int) → Option ℚ
  | [] => some total
  | e :: visit =>
    match c.totalStep total e.1 e.2 with
    | some total => Checkout.totalLoop c total visit
    | none => none

/-- `GetTotal` when `range c.products` visits the entries in the order `visit`. -/
def Checkout.GetTotalVisiting (c : Checkout) (visit : List (Sigma fun _ : String => Int)) :
    Option ℚ :=
  c.totalLoop 0 visit

/-- `Checkout.GetTotal`, visiting the entries in the order they are stored. -/
def Checkout.GetTotal (c : Checkout) : Option ℚ :=
  c.GetTotalVisiting c.products.entries

/-- The scan loop of the tests: every code of `codes` is scanned in order and
the error of a scan is dropped. -/
def Checkout.scanAll (c : Checkout) : List String → Checkout
  | [] => c
  | code :: codes => Checkout.scanAll (c.Scan code).1 codes

/-- `counts[code]` as Go reads it: `0` for a code that has no entry. -/
def Checkout.count (c : Checkout) (code : String) : Int :=
  (c.products.lookup code).getD 0

/-- The discount of the specification, `discount(code, n, p)`: the registered
strategy's `ApplyDiscount n p`, and `0` when no strategy is registered. -/
def PricingRules.discount (pr : PricingRules) (code : String) (n : Int) (p : ℚ) : Option ℚ :=
  match pr.discounts.lookup code with
  | some d => d.ApplyDiscount n p
  | none => some 0

/-- The discount of `code` in the session: `discount(code, counts[code], price(code))`. -/
def Checkout.discountOf (c : Checkout) (code : String) : Option ℚ :=
  c.pricingRules.discount code (c.count code) (c.getPrice code)

/-- The total of the specification: the sum over the distinct codes of `counts`
of `counts[code] * price(code) - discount(code)`. It is undefined (`none`)
exactly when the discount of some counted code is. -/
def Checkout.specTotal (c : Checkout) : Option ℚ :=
  if ∀ code ∈ c.products.keys, (c.discountOf code).isSome then
    some (∑ code ∈ c.products.keys.toFinset,
      ((c.count code : ℚ) * c.getPrice code - (c.discountOf code).getD 0))
  else none

/-- The three items of the sample inventory (`items` of `main` and of the tests). -/
def items : List Item :=
  [⟨"VOUCHER", "Voucher", 5⟩, ⟨"TSHIRT", "T-Shirt", 20⟩, ⟨"MUG", "Coffee Mug", 15 / 2⟩]

/-- `createPricingRules` of the tests (the same calls as in `main`): every item
is added by a call of its own, `order` being the order in which `range items`
yields them, then the two discounts are registered. The errors are dropped, as
in the source. -/
def createPricingRules (order : List Item) : PricingRules :=
  let pr := NewPricingRules
  let pr := order.foldl (fun pr item => (pr.Add [item]).1) pr
  let pr := (pr.RegisterDiscount "VOUCHER" (.getFreeUnit ⟨2, 1⟩)).1
  let pr := (pr.RegisterDiscount "TSHIRT" (.lessPrice ⟨3, 19⟩)).1
  pr

/-- A call that builds a catalog: `Add(items...)` or `RegisterDiscount(code, d)`. -/
inductive CatalogCall where
  | add (items : List Item)
  | registerDiscount (code : String) (d : DiscountApplier)

/-- The catalog after one call, whatever the call returns. -/
def PricingRules.call (pr : PricingRules) : CatalogCall → PricingRules
  | .add items => (pr.Add items).1
  | .registerDiscount code d => (pr.RegisterDiscount code d).1

/-- The catalog built from `NewPricingRules` by a sequence of calls. -/
def buildCatalog (calls : List CatalogCall) : PricingRules :=
  calls.foldl PricingRules.call NewPricingRules

/-- One iteration of the loop of `GetTotal` as a step on the session: the
session the iteration leaves next to the new running total. The iteration reads
`c.pricingRules` and the entry and assigns only to the local `total`. -/
def Checkout.totalStepSt (c : Checkout) (total : ℚ) (code : String) (amount : Int) :
    Checkout × Option ℚ :=
  (c, c.totalStep total code amount)

/-- The loop of `GetTotal` as a run on the session, each iteration starting from
the session the iteration before it left. -/
def Checkout.totalLoopSt (c : Checkout) (total : ℚ) :
    List (Sigma fun _ : String => Int) → Checkout × Option ℚ
  | [] => (c, some total)
  | e :: visit =>
    match c.totalStepSt total e.1 e.2 with
    | (c1, some total) => Checkout.totalLoopSt c1 total visit
    | (c1, none) => (c1, none)

/-- The call `c.GetTotal()` on the pointer receiver, visiting the entries in the
order `visit`: the session after the call and the value returned. -/
def Checkout.GetTotalCall (c : Checkout) (visit : List (Sigma fun _ : String => Int)) :
    Checkout × Option ℚ :=
  c.totalLoopSt 0 visit

/-- A fresh session on the catalog of `c` in which only `code` is scanned,
`counts[code]` times. -/
def Checkout.isolated (c : Checkout) (code : String) : Checkout :=
  (NewCheckout c.pricingRules).scanAll (List.replicate (c.count code).toNat code)

/-- The number of scans of `k` that return no error when `codes` is scanned in
order from the session `c`. -/
def Checkout.successfulScans (c : Checkout) (k : String) : List String → ℕ
  | [] => 0
  | code :: codes =>
    (if code = k ∧ (c.Scan code).2 = none then 1 else 0) +
      Checkout.successfulScans (c.Scan code).1 k codes

/-- The number of binary digits of `n`, by halving at most `fuel` times. -/
def F64.bits : ℕ → ℕ → ℕ
  | 0, _ => 0
  | fuel + 1, n => if n = 0 then 0 else F64.bits fuel (n / 2) + 1

/-- The integer part of the binary logarithm of `|q|`, for `q` other than `0`:
with `k` the difference of the numbers of digits of numerator and denominator,
`|q|` lies between `2 ^ (k - 1)` and `2 ^ (k + 1)`. -/
def F64.log2Floor (q : ℚ) : Int :=
  let n := q.num.natAbs
  let d := q.den
  let k : Int := (F64.bits n n : Int) - (F64.bits d d : Int)
  if (if 0 ≤ k then d * 2 ^ k.toNat ≤ n else d ≤ n * 2 ^ (-k).toNat) then k else k - 1

/-- The `float64` nearest to the rational `q`, ties to the even significand
(IEEE 754 binary64: a significand of 53 bits, exponents of the last place from
`-1074` up). Infinities are not modelled: the value is meant for `|q|` below
`2 ^ 1024`. -/
def F64.round (q : ℚ) : ℚ :=
  if q = 0 then 0
  else
    let e : Int := max (F64.log2Floor q - 52) (-1074)
    let n := q.num.natAbs
    let d := q.den
    let N : ℕ := if 0 ≤ e then n else n * 2 ^ (-e).toNat
    let D : ℕ := if 0 ≤ e then d * 2 ^ e.toNat else d
    let m0 := N / D
    let r := N % D
    let m : ℕ :=
      if 2 * r < D then m0 else if D < 2 * r then m0 + 1 else if m0 % 2 = 0 then m0 else m0 + 1
    let s : Int := if q.num < 0 then -1 else 1
    if 0 ≤ e then ((s * ((m * 2 ^ e.toNat : ℕ) : Int) : Int) : ℚ)
    else mkRat (s * (m : Int)) (2 ^ (-e).toNat)

/-- The sum of two `float64` values: the exact sum, rounded. -/
def F64.add (x y : ℚ) : ℚ := F64.round (x + y)

/-- The difference of two `float64` values: the exact difference, rounded. -/
def F64.sub (x y : ℚ) : ℚ := F64.round (x - y)

/-- The product of two `float64` values: the exact product, rounded. -/
def F64.mul (x y : ℚ) : ℚ := F64.round (x * y)

/-- The conversion `float64(n)` of an `int`. -/
def F64.ofInt (n : Int) : ℚ := F64.round (n : ℚ)

/-- `GetFreeUnitDiscount.ApplyDiscount` in `float64` arithmetic. -/
def GetFreeUnitDiscount.ApplyDiscountF64 (gfud : GetFreeUnitDiscount) (n : Int) (price : ℚ) :
    Option ℚ :=
  if gfud.Buy = 0 then none
  else
    let free : Int := Int.tdiv n gfud.Buy
    let discount : ℚ := F64.mul (F64.ofInt free) price
    some discount

/-- `LessPriceDiscount.ApplyDiscount` in `float64` arithmetic. -/
def LessPriceDiscount.ApplyDiscountF64 (lpd : LessPriceDiscount) (n : Int) (price : ℚ) :
    Option ℚ :=
  let discount : ℚ := 0
  let discount : ℚ :=
    if n ≥ lpd.Buy then F64.mul (F64.sub price lpd.Price) (F64.ofInt n) else discount
  some discount

/-- Dynamic dispatch of `ApplyDiscount`, in `float64` arithmetic. -/
def DiscountApplier.ApplyDiscountF64 (d : DiscountApplier) (n : Int) (price : ℚ) : Option ℚ :=
  match d with
  | .getFreeUnit gfud => gfud.ApplyDiscountF64 n price
  | .lessPrice lpd => lpd.ApplyDiscountF64 n price

/-- One iteration of the loop of `GetTotal` in `float64` arithmetic:
`total += float64(amount) * price`, then `total -= amountDiscount`, every
operation rounding its result. -/
def Checkout.totalStepF64 (c : Checkout) (total : ℚ) (code : String) (amount : Int) :
    Option ℚ :=
  let price := c.getPrice code
  let total := F64.add total (F64.mul (F64.ofInt amount) price)
  match c.pricingRules.discounts.lookup code with
  | some discount =>
    match discount.ApplyDiscountF64 amount price with
    | some amountDiscount => some (F64.sub total amountDiscount)
    | none => none
  | none => some total

/-- The loop of `GetTotal` in `float64` arithmetic, run from `total` over the
entries `visit`, in that order. -/
def Checkout.totalLoopF64 (c : Checkout) (total : ℚ) :
    List (Sigma fun _ : String => Int) → Option ℚ
  | [] => some total
  | e :: visit =>
    match c.totalStepF64 total e.1 e.2 with
    | some total => Checkout.totalLoopF64 c total visit
    | none => none

/-- `GetTotal` in `float64` arithmetic when `range c.products` visits the
entries in the order `visit`. -/
def Checkout.GetTotalF64Visiting (c : Checkout)
    (visit : List (Sigma fun _ : String => Int)) : Option ℚ :=
  c.totalLoopF64 0 visit

/-- Three items priced by the Go literals `0.1`, `0.2` and `0.3`, that is by the
`float64` values nearest to them. -/
def driftItems : List Item :=
  [⟨"A", "a", F64.round (1 / 10)⟩, ⟨"B", "b", F64.round (2 / 10)⟩,
    ⟨"C", "c", F64.round (3 / 10)⟩]

/-- The session after `Add` of the three items on a new catalog and one scan of
each of `A`, `B`, `C`. -/
def driftSession : Checkout :=
  (NewCheckout (NewPricingRules.Add driftItems).1).scanAll ["A", "B", "C"]

/-! ## The loop of `GetTotal` -/

theorem totalStep_eq (c : Checkout) (t : ℚ) (code : String) (n : Int) :
    c.totalStep t code n =
      (c.pricingRules.discount code n (c.getPrice code)).map
        (fun d => t + ((n : ℚ) * c.getPrice code - d)) := by
  unfold Checkout.totalStep PricingRules.discount
  cases c.pricingRules.discounts.lookup code with
  | none => simp
  | some d =>
    cases hx : d.ApplyDiscount n (c.getPrice code) with
    | none => simp [hx]
    | some x => simp [hx, add_sub_assoc]

theorem totalLoop_eq (c : Checkout) (vis : List (Sigma fun _ : String => Int)) (t : ℚ) :
    c.totalLoop t vis =
      if ∀ e ∈ vis, (c.pricingRules.discount e.1 e.2 (c.getPrice e.1)).isSome then
        some (t + (vis.map fun e => (e.2 : ℚ) * c.getPrice e.1 -
          (c.pricingRules.discount e.1 e.2 (c.getPrice e.1)).getD 0).sum)
      else none := by
  induction vis generalizing t with
  | nil => simp [Checkout.totalLoop]
  | cons e vis ih =>
    rw [Checkout.totalLoop, totalStep_eq]
    cases h : c.pricingRules.discount e.1 e.2 (c.getPrice e.1) with
    | none => simp [h]
    | some d =>
      simp only [Option.map_some', ih, List.mem_cons, forall_eq_or_imp, h, Option.isSome_some,
        true_and, List.map_cons, List.sum_cons, Option.getD_some]
      split <;> simp [add_assoc]

theorem count_of_mem (c : Checkout) (e : Sigma fun _ : String => Int)
    (he : e ∈ c.products.entries) : c.count e.1 = e.2 := by
  have : e.2 ∈ c.products.lookup e.1 := AList.mem_lookup_iff.mpr he
  simp [Checkout.count, Option.mem_def.mp this]

theorem sum_entries (c : Checkout) (f : String → Int → ℚ) :
    (c.products.entries.map fun e => f e.1 e.2).sum =
      ∑ code ∈ c.products.keys.toFinset, f code (c.count code) := by
  rw [List.sum_toFinset _ c.products.keys_nodup]
  simp only [AList.keys, List.keys, List.map_map]
  congr 1
  apply List.map_congr_left
  intro e he
  simp [count_of_mem c e he]

theorem getTotalVisiting_eq (c : Checkout) (vis : List (Sigma fun _ : String => Int))
    (hvis : vis.Perm c.products.entries) : c.GetTotalVisiting vis = c.specTotal := by
  unfold Checkout.GetTotalVisiting Checkout.specTotal
  rw [totalLoop_eq]
  have hcond : (∀ e ∈ vis, (c.pricingRules.discount e.1 e.2 (c.getPrice e.1)).isSome) ↔
      ∀ code ∈ c.products.keys, (c.discountOf code).isSome := by
    constructor
    · intro h code hcode
      obtain ⟨n, hn⟩ := Option.isSome_iff_exists.mp (AList.lookup_isSome.mpr hcode)
      have hmem : (⟨code, n⟩ : Sigma fun _ : String => Int) ∈ c.products.entries :=
        AList.mem_lookup_iff.mp hn
      have := h _ (hvis.mem_iff.mpr hmem)
      simpa [Checkout.discountOf, count_of_mem c _ hmem] using this
    · intro h e he
      have hmem := hvis.mem_iff.mp he
      have hk : e.1 ∈ c.products.keys := List.mem_keys_of_mem hmem
      have := h e.1 hk
      simpa [Checkout.discountOf, count_of_mem c _ hmem] using this
  simp only [hcond]
  split
  · rw [(hvis.map _).sum_eq, sum_entries c (fun code n => (n : ℚ) * c.getPrice code -
        (c.pricingRules.discount code n (c.getPrice code)).getD 0)]
    simp [Checkout.discountOf]
  · rfl

theorem getTotal_eq (c : Checkout) : c.GetTotal = c.specTotal :=
  getTotalVisiting_eq c _ (List.Perm.refl _)

/-! ## `Scan` -/

theorem scan_of_not_mem (c : Checkout) (code : String) (h : code ∉ c.pricingRules.products) :
    c.Scan code = (c, some ("item " ++ code ++ " does not exists in inventory")) := by
  simp [Checkout.Scan, AList.lookup_eq_none.mpr h]

theorem scan_of_mem (c : Checkout) (code : String) (h : code ∈ c.pricingRules.products) :
    c.Scan code =
      ({ c with products := c.products.insert code (c.count code + 1) }, none) := by
  obtain ⟨it, hit⟩ := Option.isSome_iff_exists.mp (AList.lookup_isSome.mpr h)
  simp [Checkout.Scan, hit, Checkout.count]

theorem scan_pricingRules (c : Checkout) (code : String) :
    (c.Scan code).1.pricingRules = c.pricingRules := by
  by_cases h : code ∈ c.pricingRules.products
  · rw [scan_of_mem c code h]
  · rw [scan_of_not_mem c code h]

theorem scanAll_pricingRules (codes : List String) (c : Checkout) :
    (c.scanAll codes).pricingRules = c.pricingRules := by
  induction codes generalizing c with
  | nil => rfl
  | cons x xs ih => rw [Checkout.scanAll, ih, scan_pricingRules]

/-- The entry of `k` after a scan loop: the old count plus the number of
occurrences of `k`, for a code of the inventory that occurs; the old entry
otherwise. -/
theorem scanAll_lookup (codes : List String) (c : Checkout) (k : String) :
    (c.scanAll codes).products.lookup k =
      if k ∈ c.pricingRules.products ∧ 0 < codes.count k then
        some (c.count k + (codes.count k : Int))
      else c.products.lookup k := by
  induction codes generalizing c with
  | nil => simp [Checkout.scanAll]
  | cons x xs ih =>
    rw [Checkout.scanAll, ih, scan_pricingRules]
    by_cases hx : x ∈ c.pricingRules.products
    · rw [scan_of_mem c x hx]
      by_cases hk : k = x
      · subst hk
        simp only [hx, true_and, Checkout.count, AList.lookup_insert, Option.getD_some,
          List.count_cons_self, Nat.succ_pos, if_true]
        split
        · simp only [Nat.cast_add, Nat.cast_one, Option.some.injEq]; ring
        · rename_i h0
          have : List.count k xs = 0 := by omega
          simp [this]
      · have hc : List.count k (x :: xs) = List.count k xs := by
          simp [List.count_cons, Ne.symm hk]
        rw [hc]
        simp [Checkout.count, AList.lookup_insert_ne hk]
    · rw [scan_of_not_mem c x hx]
      by_cases hk : k = x
      · subst hk
        simp [hx]
      · have hc : List.count k (x :: xs) = List.count k xs := by
          simp [List.count_cons, Ne.symm hk]
        rw [hc]

/-! ## `float64` totals depend on the visiting order -/

/-- The `float64` prices of the three items: the literals `0.1`, `0.2`, `0.3`. -/
theorem drift_prices :
    driftSession.getPrice "A" = 3602879701896397 / 36028797018963968 ∧
      driftSession.getPrice "B" = 3602879701896397 / 18014398509481984 ∧
      driftSession.getPrice "C" = 5404319552844595 / 18014398509481984 := by
  decide!

/-- Visited in the order `A`, `B`, `C` the `float64` total is
`0.6000000000000001`. -/
theorem drift_total_ABC :
    driftSession.GetTotalF64Visiting [⟨"A", 1⟩, ⟨"B", 1⟩, ⟨"C", 1⟩] =
      some (5404319552844596 / 9007199254740992) := by
  decide!

/-- Visited in the order `B`, `C`, `A` the `float64` total is `0.6`. -/
theorem drift_total_BCA :
    driftSession.GetTotalF64Visiting [⟨"B", 1⟩, ⟨"C", 1⟩, ⟨"A", 1⟩] =
      some (5404319552844595 / 9007199254740992) := by
  decide!

theorem drift_totals_ne :
    (some (5404319552844596 / 9007199254740992) : Option ℚ) ≠
      some (5404319552844595 / 9007199254740992) := by
  decide!

theorem drift_perm_ABC :
    [(⟨"A", 1⟩ : Sigma fun _ : String => Int), ⟨"B", 1⟩, ⟨"C", 1⟩].Perm
      driftSession.products.entries := by
  decide

theorem drift_perm_BCA :
    [(⟨"B", 1⟩ : Sigma fun _ : String => Int), ⟨"C", 1⟩, ⟨"A", 1⟩].Perm
      driftSession.products.entries := by
  decide

/-! ## The total of a session -/

/-- C1: for every catalog and every session, so for every session reached from
`NewCheckout` by scans, `GetTotal` equals the sum over the distinct codes of the
counts of `counts[code] * price(code) - discount(code)`, the discount being the
registered strategy's `ApplyDiscount` and `0` without a strategy, whatever the
order `visit` in which the entries of the counts are visited. Where the discount
of a counted code is undefined (a panic), so is the total. -/
theorem GetTotal_eq_sum_over_codes (c : Checkout) (visit : List (Sigma fun _ : String => Int))
    (hvisit : visit.Perm c.products.entries) :
    c.GetTotalVisiting visit = c.specTotal ∧ c.GetTotal = c.specTotal ∧
      ((∀ code ∈ c.products.keys, (c.discountOf code).isSome) →
        c.GetTotalVisiting visit =
          some (∑ code ∈ c.products.keys.toFinset,
            ((c.count code : ℚ) * c.getPrice code - (c.discountOf code).getD 0))) := by
  refine ⟨getTotalVisiting_eq c visit hvisit, getTotal_eq c, fun h => ?_⟩
  rw [getTotalVisiting_eq c visit hvisit, Checkout.specTotal, if_pos h]

/-- C1, at the session after scanning `MUG`, `VOUCHER` on the sample catalog,
visited in the other order. -/
theorem GetTotal_eq_sum_over_codes_witness :
    ((NewCheckout (createPricingRules items)).scanAll ["MUG", "VOUCHER"]).GetTotalVisiting
        [⟨"MUG", 1⟩, ⟨"VOUCHER", 1⟩] =
      ((NewCheckout (createPricingRules items)).scanAll ["MUG", "VOUCHER"]).specTotal :=
  (GetTotal_eq_sum_over_codes ((NewCheckout (createPricingRules items)).scanAll ["MUG", "VOUCHER"])
    [⟨"MUG", 1⟩, ⟨"VOUCHER", 1⟩] (by decide)).1

/-- C2, as stated, fails in `float64`: on the session with one scan of each of
`A`, `B`, `C` (prices `0.1`, `0.2`, `0.3`) the scan of `FAKE` returns its error,
and a `GetTotal` before it that visits the counts in the order `A`, `B`, `C`
returns `0.6000000000000001` while a `GetTotal` after it that visits them in the
order `B`, `C`, `A` returns `0.6`. -/
theorem Scan_unknown_code_float_counterexample :
    "FAKE" ∉ driftSession.pricingRules.products ∧
      (driftSession.Scan "FAKE").2 = some "item FAKE does not exists in inventory" ∧
      [(⟨"A", 1⟩ : Sigma fun _ : String => Int), ⟨"B", 1⟩, ⟨"C", 1⟩].Perm
        driftSession.products.entries ∧
      [(⟨"B", 1⟩ : Sigma fun _ : String => Int), ⟨"C", 1⟩, ⟨"A", 1⟩].Perm
        (driftSession.Scan "FAKE").1.products.entries ∧
      driftSession.GetTotalF64Visiting [⟨"A", 1⟩, ⟨"B", 1⟩, ⟨"C", 1⟩] =
        some (5404319552844596 / 9007199254740992) ∧
      (driftSession.Scan "FAKE").1.GetTotalF64Visiting [⟨"B", 1⟩, ⟨"C", 1⟩, ⟨"A", 1⟩] =
        some (5404319552844595 / 9007199254740992) ∧
      (driftSession.Scan "FAKE").1.GetTotalF64Visiting [⟨"B", 1⟩, ⟨"C", 1⟩, ⟨"A", 1⟩] ≠
        driftSession.GetTotalF64Visiting [⟨"A", 1⟩, ⟨"B", 1⟩, ⟨"C", 1⟩] := by
  decide!

/-- C2, amended: a scan of a code that is not a product key returns the error
"item <code> does not exists in inventory" and leaves the session as it was:
the counts map is the same and every earlier scan stays recorded. In exact
arithmetic the total after the failed scan is the total before it, in whatever
orders the two computations visit the counts; in `float64` it is the total
before it when the two computations visit the counts in the same order. -/
theorem Scan_unknown_code (c : Checkout) (code : String)
    (hcode : code ∉ c.pricingRules.products) :
    (c.Scan code).2 = some ("item " ++ code ++ " does not exists in inventory") ∧
      (c.Scan code).1 = c ∧ (c.Scan code).1.products = c.products ∧
      (∀ k, (c.Scan code).1.products.lookup k = c.products.lookup k) ∧
      (c.Scan code).1.GetTotal = c.GetTotal ∧
      (∀ visit visit2 : List (Sigma fun _ : String => Int),
        visit.Perm c.products.entries → visit2.Perm (c.Scan code).1.products.entries →
          (c.Scan code).1.GetTotalVisiting visit2 = c.GetTotalVisiting visit) ∧
      (∀ prior : List String, c.scanAll (code :: prior) = c.scanAll prior) ∧
      (∀ visit : List (Sigma fun _ : String => Int),
        (c.Scan code).1.GetTotalF64Visiting visit = c.GetTotalF64Visiting visit) := by
  have h := scan_of_not_mem c code hcode
  refine ⟨by rw [h], by rw [h], by rw [h], fun k => by rw [h], by rw [h], ?_, ?_,
    fun visit => by rw [h]⟩
  · intro visit visit2 h1 h2
    rw [getTotalVisiting_eq _ visit2 h2, getTotalVisiting_eq _ visit h1, h]
  · intro prior
    rw [Checkout.scanAll, h]

/-- C2 amended, at the scan of `FAKE` after a scan of `VOUCHER` on the sample
catalog. -/
theorem Scan_unknown_code_witness :
    (((NewCheckout (createPricingRules items)).scanAll ["VOUCHER"]).Scan "FAKE").2 =
        some "item FAKE does not exists in inventory" ∧
      (((NewCheckout (createPricingRules items)).scanAll ["VOUCHER"]).Scan "FAKE").1.products.entries =
        [⟨"VOUCHER", 1⟩] :=
  ⟨(Scan_unknown_code ((NewCheckout (createPricingRules items)).scanAll ["VOUCHER"]) "FAKE"
      (by decide)).1, by decide⟩

/-- C3: `Scan` returns an error exactly when the code is not a product key; for a
product key it returns no error, the count of the code becomes the old count
plus one (`1` when the code had no entry), the counts of all other codes and the
catalog are unchanged. -/
theorem Scan_known_code (c : Checkout) (code : String) :
    ((c.Scan code).2 ≠ none ↔ code ∉ c.pricingRules.products) ∧
      (code ∈ c.pricingRules.products →
        (c.Scan code).2 = none ∧
        (c.Scan code).1.products.lookup code =
          some (match c.products.lookup code with
            | some n => n + 1
            | none => 1) ∧
        (∀ k, k ≠ code → (c.Scan code).1.products.lookup k = c.products.lookup k) ∧
        (c.Scan code).1.pricingRules = c.pricingRules) := by
  by_cases h : code ∈ c.pricingRules.products
  · have hs := scan_of_mem c code h
    refine ⟨by simp [hs, h], fun _ => ⟨by rw [hs], ?_, ?_, scan_pricingRules c code⟩⟩
    · rw [hs]
      simp only [AList.lookup_insert, Checkout.count]
      cases c.products.lookup code <;> simp
    · intro k hk
      rw [hs]
      exact AList.lookup_insert_ne hk
  · have hs := scan_of_not_mem c code h
    exact ⟨by simp [hs, h], fun h2 => absurd h2 h⟩

/-- C3, at the second scan of `VOUCHER` on the sample catalog. -/
theorem Scan_known_code_witness :
    (((NewCheckout (createPricingRules items)).scanAll ["VOUCHER"]).Scan "VOUCHER").2 = none ∧
      (((NewCheckout (createPricingRules items)).scanAll ["VOUCHER"]).Scan
        "VOUCHER").1.products.lookup "VOUCHER" = some 2 :=
  ⟨((Scan_known_code ((NewCheckout (createPricingRules items)).scanAll ["VOUCHER"])
      "VOUCHER").2 (by decide)).1, by decide⟩

/-! ## The catalog: `Add` and `RegisterDiscount` -/

theorem add_cons_of_not_mem (pr : PricingRules) (item : Item) (rest : List Item)
    (h : item.Code ∉ pr.products) :
    pr.Add (item :: rest) =
      PricingRules.Add { pr with products := pr.products.insert item.Code item } rest := by
  simp [PricingRules.Add, AList.lookup_eq_none.mpr h]

theorem add_cons_of_mem (pr : PricingRules) (item : Item) (rest : List Item)
    (h : item.Code ∈ pr.products) :
    pr.Add (item :: rest) = (pr, some ("item " ++ item.Code ++ " already exists")) := by
  obtain ⟨it, hit⟩ := Option.isSome_iff_exists.mp (AList.lookup_isSome.mpr h)
  simp [PricingRules.Add, hit]

/-- Adding items with pairwise distinct codes, none of them a product key yet:
all of them are inserted, nothing else changes, and the loop goes on with the
items that follow. -/
theorem add_of_fresh (pre : List Item) (pr : PricingRules) (rest : List Item)
    (hnodup : (pre.map Item.Code).Nodup) (hfresh : ∀ p ∈ pre, p.Code ∉ pr.products) :
    pr.Add (pre ++ rest) = (pr.Add pre).1.Add rest ∧ (pr.Add pre).2 = none ∧
      (pr.Add pre).1.discounts = pr.discounts ∧
      (∀ p ∈ pre, (pr.Add pre).1.products.lookup p.Code = some p) ∧
      (∀ k, k ∉ pre.map Item.Code → (pr.Add pre).1.products.lookup k = pr.products.lookup k) := by
  induction pre generalizing pr with
  | nil => simp [PricingRules.Add]
  | cons p ps ih =>
    have hp : p.Code ∉ pr.products := hfresh p (List.mem_cons_self _ _)
    rw [List.map_cons, List.nodup_cons] at hnodup
    have hfresh2 : ∀ q ∈ ps,
        q.Code ∉ ({ pr with products := pr.products.insert p.Code p } : PricingRules).products := by
      intro q hq hmem
      rcases (AList.mem_insert _).mp hmem with h | h
      · exact hnodup.1 (h ▸ List.mem_map_of_mem Item.Code hq)
      · exact hfresh q (List.mem_cons_of_mem _ hq) h
    obtain ⟨h1, h2, h3, h4, h5⟩ := ih _ hnodup.2 hfresh2
    rw [List.cons_append, add_cons_of_not_mem pr p _ hp, add_cons_of_not_mem pr p _ hp]
    refine ⟨h1, h2, h3, ?_, ?_⟩
    · intro q hq
      rcases List.mem_cons.mp hq with rfl | hq
      · rw [h5 _ hnodup.1]
        exact AList.lookup_insert _
      · exact h4 q hq
    · intro k hk
      rw [List.map_cons, List.mem_cons, not_or] at hk
      rw [h5 k hk.2]
      exact AList.lookup_insert_ne hk.1

/-- The product keys after `Add` of fresh items with distinct codes. -/
theorem mem_add_of_fresh (pre : List Item) (pr : PricingRules)
    (hnodup : (pre.map Item.Code).Nodup) (hfresh : ∀ p ∈ pre, p.Code ∉ pr.products)
    (k : String) :
    k ∈ (pr.Add pre).1.products ↔ k ∈ pr.products ∨ k ∈ pre.map Item.Code := by
  obtain ⟨_, _, _, h4, h5⟩ := add_of_fresh pre pr [] hnodup hfresh
  by_cases hk : k ∈ pre.map Item.Code
  · obtain ⟨p, hp, rfl⟩ := List.mem_map.mp hk
    simp only [hk, or_true, iff_true]
    exact AList.lookup_isSome.mp (by rw [h4 p hp]; rfl)
  · rw [← AList.lookup_isSome, h5 k hk, AList.lookup_isSome]
    simp [hk]

/-- Every list of items either has pairwise distinct codes that are all new to
the catalog, or splits at a first item that repeats a code. -/
theorem items_split (known : String → Prop) (l : List Item) :
    ((l.map Item.Code).Nodup ∧ ∀ p ∈ l, ¬ known p.Code) ∨
      ∃ pre it post, l = pre ++ it :: post ∧ (pre.map Item.Code).Nodup ∧
        (∀ p ∈ pre, ¬ known p.Code) ∧ (known it.Code ∨ it.Code ∈ pre.map Item.Code) := by
  induction l using List.reverseRecOn with
  | nil => left; simp
  | append_singleton init x ih =>
    rcases ih with ⟨hn, hf⟩ | ⟨pre, it, post, rfl, hn, hf, hit⟩
    · by_cases hx : known x.Code ∨ x.Code ∈ init.map Item.Code
      · exact Or.inr ⟨init, x, [], rfl, hn, hf, hx⟩
      · rw [not_or] at hx
        left
        constructor
        · rw [List.map_append, List.nodup_append]
          refine ⟨hn, by simp, ?_⟩
          intro a ha hb
          simp only [List.map_cons, List.map_nil, List.mem_singleton] at hb
          exact hx.2 (hb ▸ ha)
        · intro p hp
          rcases List.mem_append.mp hp with h | h
          · exact hf p h
          · rw [List.mem_singleton.mp h]; exact hx.1
    · exact Or.inr ⟨pre, it, post ++ [x], by simp, hn, hf, hit⟩

/-- C4: `Add` inserts the items in order and stops at the first item whose code
is already a product key, be it from before the call or from an earlier item of
the call. For items `pre` with pairwise distinct codes, none a product key
before the call, `Add` returns nil, every item of `pre` is stored under its code
and nothing else changes; when an item `it` that repeats a code follows `pre`,
`Add` returns "item <code> already exists" for its code and leaves the catalog
as `Add` of `pre` alone does, so that `pre` stays inserted and no item of `post`
is. Every list of items is of one of these two shapes. -/
theorem Add_stops_at_first_repeat (pr : PricingRules) (pre : List Item)
    (hnodup : (pre.map Item.Code).Nodup) (hfresh : ∀ p ∈ pre, p.Code ∉ pr.products) :
    ((pr.Add pre).2 = none ∧
        (∀ p ∈ pre, (pr.Add pre).1.products.lookup p.Code = some p) ∧
        (∀ k, k ∉ pre.map Item.Code →
          (pr.Add pre).1.products.lookup k = pr.products.lookup k) ∧
        (pr.Add pre).1.discounts = pr.discounts) ∧
      (∀ (it : Item) (post : List Item),
        (it.Code ∈ pr.products ∨ it.Code ∈ pre.map Item.Code) →
          pr.Add (pre ++ it :: post) =
            ((pr.Add pre).1, some ("item " ++ it.Code ++ " already exists"))) ∧
      (∀ l : List Item,
        ((l.map Item.Code).Nodup ∧ ∀ p ∈ l, p.Code ∉ pr.products) ∨
          ∃ pre2 it post, l = pre2 ++ it :: post ∧ (pre2.map Item.Code).Nodup ∧
            (∀ p ∈ pre2, p.Code ∉ pr.products) ∧
            (it.Code ∈ pr.products ∨ it.Code ∈ pre2.map Item.Code)) := by
  obtain ⟨_, h2, h3, h4, h5⟩ := add_of_fresh pre pr [] hnodup hfresh
  refine ⟨⟨h2, h4, h5, h3⟩, ?_, fun l => items_split (fun k => k ∈ pr.products) l⟩
  intro it post hit
  rw [(add_of_fresh pre pr (it :: post) hnodup hfresh).1]
  exact add_cons_of_mem _ it post ((mem_add_of_fresh pre pr hnodup hfresh it.Code).mpr hit)

/-- C4, at `Add(VOUCHER, VOUCHER, MUG)` on the empty catalog, the call of
`TestPricingRuleAddFails` with one more item. -/
theorem Add_stops_at_first_repeat_witness :
    (NewPricingRules.Add [⟨"VOUCHER", "Voucher", 5⟩, ⟨"VOUCHER", "Again", 6⟩,
        ⟨"MUG", "Coffee Mug", 15 / 2⟩]) =
      ((NewPricingRules.Add [⟨"VOUCHER", "Voucher", 5⟩]).1,
        some ("item " ++ "VOUCHER" ++ " already exists")) :=
  (Add_stops_at_first_repeat NewPricingRules [⟨"VOUCHER", "Voucher", 5⟩] (by decide)
    (by decide)).2.1 ⟨"VOUCHER", "Again", 6⟩ [⟨"MUG", "Coffee Mug", 15 / 2⟩]
    (Or.inr (by decide))

theorem registerDiscount_of_not_mem (pr : PricingRules) (code : String) (d : DiscountApplier)
    (h : code ∉ pr.products) :
    pr.RegisterDiscount code d = (pr, some ("item " ++ code ++ " does not exists")) := by
  simp [PricingRules.RegisterDiscount, AList.lookup_eq_none.mpr h]

theorem registerDiscount_of_dup (pr : PricingRules) (code : String) (d : DiscountApplier)
    (h : code ∈ pr.products) (hd : code ∈ pr.discounts) :
    pr.RegisterDiscount code d =
      (pr, some ("discount for item " ++ code ++ " already exists")) := by
  obtain ⟨it, hit⟩ := Option.isSome_iff_exists.mp (AList.lookup_isSome.mpr h)
  obtain ⟨d0, hd0⟩ := Option.isSome_iff_exists.mp (AList.lookup_isSome.mpr hd)
  simp [PricingRules.RegisterDiscount, hit, hd0]

theorem registerDiscount_of_new (pr : PricingRules) (code : String) (d : DiscountApplier)
    (h : code ∈ pr.products) (hd : code ∉ pr.discounts) :
    pr.RegisterDiscount code d =
      ({ pr with discounts := pr.discounts.insert code d }, none) := by
  obtain ⟨it, hit⟩ := Option.isSome_iff_exists.mp (AList.lookup_isSome.mpr h)
  simp [PricingRules.RegisterDiscount, hit, AList.lookup_eq_none.mpr hd]

/-- C5: `RegisterDiscount(code, d)` returns "item <code> does not exists" when the
code is not a product key, "discount for item <code> already exists" when the
code is a product key that has a discount, and the catalog is unchanged in both
cases; otherwise it returns nil, `discounts[code]` is `d`, the products and the
discounts of all other codes are unchanged. -/
theorem RegisterDiscount_cases (pr : PricingRules) (code : String) (d : DiscountApplier) :
    (code ∉ pr.products →
        pr.RegisterDiscount code d = (pr, some ("item " ++ code ++ " does not exists"))) ∧
      (code ∈ pr.products → code ∈ pr.discounts →
        pr.RegisterDiscount code d =
          (pr, some ("discount for item " ++ code ++ " already exists"))) ∧
      (code ∈ pr.products → code ∉ pr.discounts →
        (pr.RegisterDiscount code d).2 = none ∧
        (pr.RegisterDiscount code d).1.products = pr.products ∧
        (pr.RegisterDiscount code d).1.discounts.lookup code = some d ∧
        (∀ k, k ≠ code →
          (pr.RegisterDiscount code d).1.discounts.lookup k = pr.discounts.lookup k)) := by
  refine ⟨registerDiscount_of_not_mem pr code d, registerDiscount_of_dup pr code d, ?_⟩
  intro h hd
  rw [registerDiscount_of_new pr code d h hd]
  exact ⟨rfl, rfl, AList.lookup_insert _, fun k hk => AList.lookup_insert_ne hk⟩

/-- C5, on the sample catalog: an unknown code, a second discount for `VOUCHER`
and a first discount for `MUG`. -/
theorem RegisterDiscount_cases_witness :
    (createPricingRules items).RegisterDiscount "FAKE" (.getFreeUnit ⟨2, 1⟩) =
        (createPricingRules items, some ("item " ++ "FAKE" ++ " does not exists")) ∧
      (createPricingRules items).RegisterDiscount "VOUCHER" (.getFreeUnit ⟨3, 1⟩) =
        (createPricingRules items,
          some ("discount for item " ++ "VOUCHER" ++ " already exists")) ∧
      ((createPricingRules items).RegisterDiscount "MUG"
        (.getFreeUnit ⟨3, 1⟩)).1.discounts.lookup "MUG" = some (.getFreeUnit ⟨3, 1⟩) :=
  ⟨(RegisterDiscount_cases (createPricingRules items) "FAKE" (.getFreeUnit ⟨2, 1⟩)).1
      (by decide),
    (RegisterDiscount_cases (createPricingRules items) "VOUCHER" (.getFreeUnit ⟨3, 1⟩)).2.1
      (by decide) (by decide),
    ((RegisterDiscount_cases (createPricingRules items) "MUG" (.getFreeUnit ⟨3, 1⟩)).2.2
      (by decide) (by decide)).2.2.1⟩

/-! ## The two discount strategies -/

/-- C6: for `Buy >= 1` and a count `n >= 0`, the free-unit discount is
`floor(n / Buy) * p`; it is `0` when `n < Buy`, and it is the same for every
value of `Free`. -/
theorem GetFreeUnitDiscount_apply (gfud : GetFreeUnitDiscount) (n : Int) (p : ℚ)
    (hBuy : 1 ≤ gfud.Buy) (hn : 0 ≤ n) :
    gfud.ApplyDiscount n p = some ((⌊(n : ℚ) / (gfud.Buy : ℚ)⌋ : ℚ) * p) ∧
      (n < gfud.Buy → gfud.ApplyDiscount n p = some 0) ∧
      (∀ free : Int,
        ({ Buy := gfud.Buy, Free := free } : GetFreeUnitDiscount).ApplyDiscount n p =
          gfud.ApplyDiscount n p) := by
  have hne : gfud.Buy ≠ 0 := by omega
  have hdiv : Int.tdiv n gfud.Buy = n / gfud.Buy := Int.tdiv_eq_ediv hn (by omega)
  have hfloor : ⌊(n : ℚ) / (gfud.Buy : ℚ)⌋ = n / gfud.Buy := by
    obtain ⟨b, hb⟩ := Int.eq_ofNat_of_zero_le (show 0 ≤ gfud.Buy by omega)
    rw [hb]
    exact_mod_cast Rat.floor_intCast_div_natCast n b
  refine ⟨?_, ?_, ?_⟩
  · simp [GetFreeUnitDiscount.ApplyDiscount, hne, hdiv, hfloor]
  · intro hlt
    simp [GetFreeUnitDiscount.ApplyDiscount, hne, hdiv, Int.ediv_eq_zero_of_lt hn hlt]
  · intro free
    simp [GetFreeUnitDiscount.ApplyDiscount]

/-- C6, at `GetFreeUnitDiscount{2, 1}` with `5` units at price `5`. -/
theorem GetFreeUnitDiscount_apply_witness :
    (⟨2, 1⟩ : GetFreeUnitDiscount).ApplyDiscount 5 5 =
      some ((⌊((5 : Int) : ℚ) / (((⟨2, 1⟩ : GetFreeUnitDiscount).Buy : Int) : ℚ)⌋ : ℚ) * 5) :=
  (GetFreeUnitDiscount_apply ⟨2, 1⟩ 5 5 (by decide) (by decide)).1

/-- C7: the lower-price discount is `0` when `n < Buy` and `(p - Price) * n` when
`n >= Buy`: from the threshold on, all `n` units cost the reduced price, the
gross amount less the discount being `n * Price`. -/
theorem LessPriceDiscount_apply (lpd : LessPriceDiscount) (n : Int) (p : ℚ) :
    lpd.ApplyDiscount n p = some (if n < lpd.Buy then 0 else (p - lpd.Price) * (n : ℚ)) ∧
      (n < lpd.Buy → lpd.ApplyDiscount n p = some 0) ∧
      (lpd.Buy ≤ n → lpd.ApplyDiscount n p = some ((p - lpd.Price) * (n : ℚ))) ∧
      (lpd.Buy ≤ n → ∃ d, lpd.ApplyDiscount n p = some d ∧
        (n : ℚ) * p - d = (n : ℚ) * lpd.Price) := by
  by_cases h : n < lpd.Buy
  · have h2 : ¬ lpd.Buy ≤ n := by omega
    simp [LessPriceDiscount.ApplyDiscount, h, h2]
  · have h2 : lpd.Buy ≤ n := by omega
    simp only [LessPriceDiscount.ApplyDiscount, ge_iff_le, h2, if_true, h, if_false, true_and,
      false_implies, true_implies, Option.some.injEq, exists_eq_left']
    ring

/-- C7, at `LessPriceDiscount{3, 19}` with `4` units at price `20`. -/
theorem LessPriceDiscount_apply_witness :
    (⟨3, 19⟩ : LessPriceDiscount).ApplyDiscount 4 20 = some ((20 - 19) * ((4 : Int) : ℚ)) :=
  (LessPriceDiscount_apply ⟨3, 19⟩ 4 20).2.2.1 (by decide)

/-! ## Sessions on a fresh checkout -/

theorem count_scanAll_new (pr : PricingRules) (codes : List String) (k : String)
    (hk : k ∈ pr.products) :
    ((NewCheckout pr).scanAll codes).count k = (codes.count k : Int) := by
  have hk2 : k ∈ (NewCheckout pr).pricingRules.products := hk
  have h0 : (NewCheckout pr).count k = 0 := rfl
  rw [Checkout.count, scanAll_lookup, h0]
  by_cases hc : 0 < codes.count k
  · rw [if_pos ⟨hk2, hc⟩]
    simp
  · have hz : codes.count k = 0 := by omega
    rw [if_neg (fun h => hc h.2), hz]
    rfl

theorem mem_scanAll_new (pr : PricingRules) (codes : List String) (k : String) :
    k ∈ ((NewCheckout pr).scanAll codes).products ↔ k ∈ pr.products ∧ 0 < codes.count k := by
  rw [← AList.lookup_isSome, scanAll_lookup]
  by_cases h : k ∈ (NewCheckout pr).pricingRules.products ∧ 0 < codes.count k
  · rw [if_pos h]
    exact iff_of_true rfl h
  · rw [if_neg h]
    exact iff_of_false (by simp [NewCheckout]) h

theorem getPrice_scanAll_new (pr : PricingRules) (codes : List String) (k : String) :
    ((NewCheckout pr).scanAll codes).getPrice k = (NewCheckout pr).getPrice k := by
  simp [Checkout.getPrice, scanAll_pricingRules]

/-! ## The sample catalog -/

theorem foldl_add_of_fresh (order : List Item) (pr : PricingRules)
    (hnodup : (order.map Item.Code).Nodup) (hfresh : ∀ p ∈ order, p.Code ∉ pr.products) :
    order.foldl (fun pr item => (pr.Add [item]).1) pr = (pr.Add order).1 := by
  induction order generalizing pr with
  | nil => rfl
  | cons p ps ih =>
    have hp : p.Code ∉ pr.products := hfresh p (List.mem_cons_self _ _)
    rw [List.map_cons, List.nodup_cons] at hnodup
    have hfresh2 : ∀ q ∈ ps,
        q.Code ∉ ({ pr with products := pr.products.insert p.Code p } : PricingRules).products := by
      intro q hq hmem
      rcases (AList.mem_insert _).mp hmem with h | h
      · exact hnodup.1 (h ▸ List.mem_map_of_mem Item.Code hq)
      · exact hfresh q (List.mem_cons_of_mem _ hq) h
    rw [List.foldl_cons, add_cons_of_not_mem pr p [] hp, add_cons_of_not_mem pr p ps hp]
    exact ih _ hnodup.2 hfresh2

/-- The sample catalog, in whatever order the three items are added. -/
theorem createPricingRules_maps (order : List Item) (horder : order.Perm items) :
    (∀ p ∈ items, (createPricingRules order).products.lookup p.Code = some p) ∧
      (∀ k, k ∉ items.map Item.Code → (createPricingRules order).products.lookup k = none) ∧
      (createPricingRules order).discounts =
        (((∅ : GoMap DiscountApplier).insert "VOUCHER" (.getFreeUnit ⟨2, 1⟩)).insert "TSHIRT"
          (.lessPrice ⟨3, 19⟩)) := by
  have hnodup : (order.map Item.Code).Nodup :=
    ((horder.map Item.Code).nodup_iff).mpr (by decide)
  have hfresh : ∀ p ∈ order, p.Code ∉ NewPricingRules.products := fun p _ =>
    AList.not_mem_empty _
  obtain ⟨_, _, h3, h4, h5⟩ := add_of_fresh order NewPricingRules [] hnodup hfresh
  have hV : "VOUCHER" ∈ (NewPricingRules.Add order).1.products :=
    (mem_add_of_fresh order NewPricingRules hnodup hfresh _).mpr
      (Or.inr ((horder.map Item.Code).mem_iff.mpr (by decide)))
  have hT : "TSHIRT" ∈ (NewPricingRules.Add order).1.products :=
    (mem_add_of_fresh order NewPricingRules hnodup hfresh _).mpr
      (Or.inr ((horder.map Item.Code).mem_iff.mpr (by decide)))
  have hVd : "VOUCHER" ∉ (NewPricingRules.Add order).1.discounts := by
    rw [h3]; exact AList.not_mem_empty _
  have hcreate : createPricingRules order =
      { products := (NewPricingRules.Add order).1.products,
        discounts := (((∅ : GoMap DiscountApplier).insert "VOUCHER"
          (.getFreeUnit ⟨2, 1⟩)).insert "TSHIRT" (.lessPrice ⟨3, 19⟩)) } := by
    unfold createPricingRules
    simp only
    rw [foldl_add_of_fresh order NewPricingRules hnodup hfresh,
      registerDiscount_of_new _ _ _ hV hVd, h3]
    have hTd : "TSHIRT" ∉ AList.insert "VOUCHER" (DiscountApplier.getFreeUnit ⟨2, 1⟩)
        (∅ : GoMap DiscountApplier) := by decide
    exact congrArg Prod.fst (registerDiscount_of_new
      (PricingRules.mk (NewPricingRules.Add order).1.products
        (AList.insert "VOUCHER" (DiscountApplier.getFreeUnit ⟨2, 1⟩) ∅))
      "TSHIRT" (.lessPrice ⟨3, 19⟩) hT hTd)
  rw [hcreate]
  refine ⟨fun p hp => h4 p (horder.mem_iff.mpr hp), fun k hk => ?_, rfl⟩
  rw [h5 k (fun h => hk ((horder.map Item.Code).mem_iff.mp h))]
  rfl

theorem floor_half (v : ℕ) : ⌊(v : ℚ) / 2⌋ = ((v / 2 : ℕ) : Int) := by
  have h := Rat.floor_intCast_div_natCast (v : Int) 2
  simp only [Int.cast_natCast, Nat.cast_ofNat] at h
  rw [h]
  norm_cast

/-- The total of the specification on the sample catalog, by the numbers of
`VOUCHER`, `TSHIRT` and `MUG` codes scanned. -/
theorem sample_specTotal (order : List Item) (horder : order.Perm items)
    (codes : List String) :
    ((NewCheckout (createPricingRules order)).scanAll codes).specTotal =
      some (((codes.count "VOUCHER" : ℚ) - ((codes.count "VOUCHER" / 2 : ℕ) : ℚ)) * 5 +
        (if codes.count "TSHIRT" < 3 then 20 * (codes.count "TSHIRT" : ℚ)
          else 19 * (codes.count "TSHIRT" : ℚ)) +
        15 / 2 * (codes.count "MUG" : ℚ)) := by
  obtain ⟨hP, hN, hD⟩ := createPricingRules_maps order horder
  have hV := hP ⟨"VOUCHER", "Voucher", 5⟩ (by simp [items])
  have hT := hP ⟨"TSHIRT", "T-Shirt", 20⟩ (by simp [items])
  have hM := hP ⟨"MUG", "Coffee Mug", 15 / 2⟩ (by simp [items])
  simp only at hV hT hM
  have hVm : "VOUCHER" ∈ (createPricingRules order).products :=
    AList.lookup_isSome.mp (by rw [hV]; rfl)
  have hTm : "TSHIRT" ∈ (createPricingRules order).products :=
    AList.lookup_isSome.mp (by rw [hT]; rfl)
  have hMm : "MUG" ∈ (createPricingRules order).products :=
    AList.lookup_isSome.mp (by rw [hM]; rfl)
  have hdV : (createPricingRules order).discounts.lookup "VOUCHER" =
      some (.getFreeUnit ⟨2, 1⟩) := by rw [hD]; rfl
  have hdT : (createPricingRules order).discounts.lookup "TSHIRT" =
      some (.lessPrice ⟨3, 19⟩) := by rw [hD]; rfl
  have hdM : (createPricingRules order).discounts.lookup "MUG" = none := by rw [hD]; rfl
  generalize hc : (NewCheckout (createPricingRules order)).scanAll codes = c
  have hpr : c.pricingRules = createPricingRules order := by
    rw [← hc, scanAll_pricingRules]; rfl
  have hcV : c.count "VOUCHER" = (codes.count "VOUCHER" : Int) := by
    rw [← hc]; exact count_scanAll_new _ _ _ hVm
  have hcT : c.count "TSHIRT" = (codes.count "TSHIRT" : Int) := by
    rw [← hc]; exact count_scanAll_new _ _ _ hTm
  have hcM : c.count "MUG" = (codes.count "MUG" : Int) := by
    rw [← hc]; exact count_scanAll_new _ _ _ hMm
  have hpV : c.getPrice "VOUCHER" = 5 := by simp [Checkout.getPrice, hpr, hV]
  have hpT : c.getPrice "TSHIRT" = 20 := by simp [Checkout.getPrice, hpr, hT]
  have hpM : c.getPrice "MUG" = 15 / 2 := by simp [Checkout.getPrice, hpr, hM]
  have hfV : c.discountOf "VOUCHER" = some (((codes.count "VOUCHER" / 2 : ℕ) : ℚ) * 5) := by
    simp only [Checkout.discountOf, PricingRules.discount, hpr, hdV, hcV, hpV,
      DiscountApplier.ApplyDiscount, GetFreeUnitDiscount.ApplyDiscount]
    rw [Int.tdiv_eq_ediv (Int.natCast_nonneg _) (by decide)]
    simp only [OfNat.ofNat_ne_zero, if_false, Option.some.injEq]
    norm_cast
  have hfT : c.discountOf "TSHIRT" =
      some (if 3 ≤ codes.count "TSHIRT" then (20 - 19) * (codes.count "TSHIRT" : ℚ) else 0) := by
    simp only [Checkout.discountOf, PricingRules.discount, hpr, hdT, hcT, hpT,
      DiscountApplier.ApplyDiscount, LessPriceDiscount.ApplyDiscount]
    simp
  have hfM : c.discountOf "MUG" = some 0 := by
    simp only [Checkout.discountOf, PricingRules.discount, hpr, hdM]
  have hkeys : ∀ k ∈ c.products.keys, k = "VOUCHER" ∨ k = "TSHIRT" ∨ k = "MUG" := by
    intro k hk
    have hk2 : k ∈ (createPricingRules order).products := by
      rw [← hc] at hk
      exact ((mem_scanAll_new _ codes k).mp (AList.mem_keys.mpr hk)).1
    by_contra hne
    have hnot : k ∉ items.map Item.Code := by
      simpa [items] using hne
    exact (AList.lookup_eq_none.mp (hN k hnot)) hk2
  have hzero : ∀ k, k ∈ (createPricingRules order).products → k ∉ c.products.keys →
      codes.count k = 0 := by
    intro k hk hnk
    by_contra h0
    apply hnk
    rw [← hc]
    exact AList.mem_keys.mp ((mem_scanAll_new _ codes k).mpr ⟨hk, Nat.pos_of_ne_zero h0⟩)
  have hsome : ∀ code ∈ c.products.keys, (c.discountOf code).isSome := by
    intro k hk
    rcases hkeys k hk with rfl | rfl | rfl
    · rw [hfV]; rfl
    · rw [hfT]; rfl
    · rw [hfM]; rfl
  have hsub : c.products.keys.toFinset ⊆ ({"VOUCHER", "TSHIRT", "MUG"} : Finset String) := by
    intro k hk
    rcases hkeys k (List.mem_toFinset.mp hk) with rfl | rfl | rfl <;> simp
  rw [Checkout.specTotal, if_pos hsome, Finset.sum_subset hsub]
  · rw [Finset.sum_insert (by decide), Finset.sum_insert (by decide), Finset.sum_singleton,
      hfV, hfT, hfM, hcV, hcT, hcM, hpV, hpT, hpM]
    simp only [Option.getD_some, Int.cast_natCast, Option.some.injEq]
    by_cases h3 : codes.count "TSHIRT" < 3
    · have h3b : ¬ 3 ≤ codes.count "TSHIRT" := by omega
      simp only [h3, h3b, if_true, if_false]
      ring
    · have h3b : 3 ≤ codes.count "TSHIRT" := by omega
      simp only [h3, h3b, if_true, if_false]
      ring
  · intro k hk hnk
    have hnk2 : k ∉ c.products.keys := fun h => hnk (List.mem_toFinset.mpr h)
    simp only [Finset.mem_insert, Finset.mem_singleton] at hk
    rcases hk with rfl | rfl | rfl
    · have h0 := hzero _ hVm hnk2
      rw [hfV, hcV, h0]; simp
    · have h0 := hzero _ hTm hnk2
      rw [hfT, hcT, h0]; simp
    · have h0 := hzero _ hMm hnk2
      rw [hfM, hcM, h0]; simp

/-- C8: on the sample catalog (the three items added in any order `order`), a
scan sequence with `v` `VOUCHER`, `t` `TSHIRT` and `m` `MUG` codes, in any
order and whatever else it contains, totals
`(v - floor(v/2)) * 5 + (20 * t if t < 3 else 19 * t) + 7.5 * m`, in whatever
order the counts are visited; the six sequences of the scenario table total
`0`, `5`, `25`, `32.5`, `81` and `74.5`. -/
theorem sample_catalog_total (order : List Item) (horder : order.Perm items)
    (codes : List String) (v t m : ℕ) (hv : codes.count "VOUCHER" = v)
    (ht : codes.count "TSHIRT" = t) (hm : codes.count "MUG" = m)
    (visit : List (Sigma fun _ : String => Int))
    (hvisit : visit.Perm ((NewCheckout (createPricingRules order)).scanAll codes).products.entries) :
    ((NewCheckout (createPricingRules order)).scanAll codes).GetTotalVisiting visit =
        some (((v : ℚ) - (⌊(v : ℚ) / 2⌋ : ℚ)) * 5 +
          (if t < 3 then 20 * (t : ℚ) else 19 * (t : ℚ)) + 15 / 2 * (m : ℚ)) ∧
      ((NewCheckout (createPricingRules order)).scanAll []).GetTotal = some 0 ∧
      ((NewCheckout (createPricingRules order)).scanAll ["VOUCHER"]).GetTotal = some 5 ∧
      ((NewCheckout (createPricingRules order)).scanAll
        ["VOUCHER", "TSHIRT", "VOUCHER"]).GetTotal = some 25 ∧
      ((NewCheckout (createPricingRules order)).scanAll
        ["VOUCHER", "TSHIRT", "MUG"]).GetTotal = some (65 / 2) ∧
      ((NewCheckout (createPricingRules order)).scanAll
        ["TSHIRT", "TSHIRT", "TSHIRT", "VOUCHER", "TSHIRT"]).GetTotal = some 81 ∧
      ((NewCheckout (createPricingRules order)).scanAll
        ["VOUCHER", "TSHIRT", "VOUCHER", "VOUCHER", "MUG", "TSHIRT", "TSHIRT"]).GetTotal =
          some (149 / 2) := by
  refine ⟨?_, ?_, ?_, ?_, ?_, ?_, ?_⟩
  · rw [getTotalVisiting_eq _ visit hvisit, sample_specTotal order horder, hv, ht, hm,
      floor_half]
    norm_cast
  all_goals
    rw [getTotal_eq, sample_specTotal order horder]
    have h1 : ("VOUCHER" = "TSHIRT") = False := by decide
    have h2 : ("VOUCHER" = "MUG") = False := by decide
    have h3 : ("TSHIRT" = "VOUCHER") = False := by decide
    have h4 : ("TSHIRT" = "MUG") = False := by decide
    have h5 : ("MUG" = "VOUCHER") = False := by decide
    have h6 : ("MUG" = "TSHIRT") = False := by decide
    norm_num [List.count_cons, h1, h2, h3, h4, h5, h6]

/-- C8, at the scan sequence `TSHIRT, VOUCHER` on the sample catalog, the counts
visited in the order `VOUCHER`, `TSHIRT`. -/
theorem sample_catalog_total_witness :
    ((NewCheckout (createPricingRules items)).scanAll ["TSHIRT", "VOUCHER"]).GetTotalVisiting
        [⟨"VOUCHER", 1⟩, ⟨"TSHIRT", 1⟩] =
      some ((((1 : ℕ) : ℚ) - (⌊((1 : ℕ) : ℚ) / 2⌋ : ℚ)) * 5 +
        (if 1 < 3 then 20 * ((1 : ℕ) : ℚ) else 19 * ((1 : ℕ) : ℚ)) + 15 / 2 * ((0 : ℕ) : ℚ)) :=
  (sample_catalog_total items (List.Perm.refl _) ["TSHIRT", "VOUCHER"] 1 1 0 (by decide)
    (by decide) (by decide) [⟨"VOUCHER", 1⟩, ⟨"TSHIRT", 1⟩] (by decide)).1

/-! ## Strategy parameters -/

/-- C9, as stated, fails: on the sample catalog `RegisterDiscount` accepts for
`MUG` (unit price `7.5`, no discount yet) a lower-price strategy with new price
`8`, a free-unit strategy with `Buy = 0` and a lower-price strategy with
threshold `-1`, returning nil and associating the strategy each time. -/
theorem RegisterDiscount_validates_counterexample :
    ((createPricingRules items).products.lookup "MUG" = some ⟨"MUG", "Coffee Mug", 15 / 2⟩ ∧
        (15 / 2 : ℚ) < 8 ∧
        ((createPricingRules items).RegisterDiscount "MUG" (.lessPrice ⟨3, 8⟩)).2 = none ∧
        ((createPricingRules items).RegisterDiscount "MUG"
          (.lessPrice ⟨3, 8⟩)).1.discounts.lookup "MUG" = some (.lessPrice ⟨3, 8⟩)) ∧
      (((createPricingRules items).RegisterDiscount "MUG" (.getFreeUnit ⟨0, 1⟩)).2 = none ∧
        ((createPricingRules items).RegisterDiscount "MUG"
          (.getFreeUnit ⟨0, 1⟩)).1.discounts.lookup "MUG" = some (.getFreeUnit ⟨0, 1⟩)) ∧
      (((createPricingRules items).RegisterDiscount "MUG" (.lessPrice ⟨-1, 7⟩)).2 = none ∧
        ((createPricingRules items).RegisterDiscount "MUG"
          (.lessPrice ⟨-1, 7⟩)).1.discounts.lookup "MUG" = some (.lessPrice ⟨-1, 7⟩)) :=
  ⟨⟨rfl, by norm_num, rfl, rfl⟩, ⟨rfl, rfl⟩, ⟨rfl, rfl⟩⟩

/-- C9, amended: `RegisterDiscount` does not look at the strategy. It returns an
error exactly when the code is not a product key or already has a discount, the
same for every strategy; for a product key without a discount it returns nil
and associates the strategy, whatever its parameters. -/
theorem RegisterDiscount_accepts_every_strategy (pr : PricingRules) (code : String)
    (d : DiscountApplier) (hcode : code ∈ pr.products) (hnew : code ∉ pr.discounts) :
    (pr.RegisterDiscount code d).2 = none ∧
      (pr.RegisterDiscount code d).1.discounts.lookup code = some d ∧
      (∀ (pr2 : PricingRules) (code2 : String) (d1 d2 : DiscountApplier),
        ((pr2.RegisterDiscount code2 d1).2 ≠ none ↔
          (code2 ∉ pr2.products ∨ code2 ∈ pr2.discounts)) ∧
        (pr2.RegisterDiscount code2 d1).2 = (pr2.RegisterDiscount code2 d2).2) := by
  refine ⟨?_, ?_, ?_⟩
  · rw [registerDiscount_of_new pr code d hcode hnew]
  · rw [registerDiscount_of_new pr code d hcode hnew]
    exact AList.lookup_insert _
  · intro pr2 code2 d1 d2
    by_cases h : code2 ∈ pr2.products
    · by_cases hd : code2 ∈ pr2.discounts
      · simp [registerDiscount_of_dup pr2 code2 _ h hd, h, hd]
      · simp [registerDiscount_of_new pr2 code2 _ h hd, h, hd]
    · simp [registerDiscount_of_not_mem pr2 code2 _ h, h]

/-- C9 amended, at the registration of `GetFreeUnitDiscount{0, 1}` for `MUG` on
the sample catalog. -/
theorem RegisterDiscount_accepts_every_strategy_witness :
    ((createPricingRules items).RegisterDiscount "MUG" (.getFreeUnit ⟨0, 1⟩)).2 = none :=
  (RegisterDiscount_accepts_every_strategy (createPricingRules items) "MUG"
    (.getFreeUnit ⟨0, 1⟩) (by decide) (by decide)).1

/-- C10, at a failing input: `Add` of the three sample items and
`RegisterDiscount("MUG", GetFreeUnitDiscount{0, 1})` both return nil, the scan of
`MUG` returns nil, and `GetTotal` then divides by zero: it panics instead of
returning an amount. -/
theorem GetTotal_panics_on_zero_buy :
    (NewPricingRules.Add items).2 = none ∧
      ((NewPricingRules.Add items).1.RegisterDiscount "MUG" (.getFreeUnit ⟨0, 1⟩)).2 = none ∧
      ((NewCheckout (buildCatalog [.add items,
        .registerDiscount "MUG" (.getFreeUnit ⟨0, 1⟩)])).Scan "MUG").2 = none ∧
      ((NewCheckout (buildCatalog [.add items,
        .registerDiscount "MUG" (.getFreeUnit ⟨0, 1⟩)])).scanAll ["MUG"]).GetTotal = none :=
  ⟨rfl, rfl, rfl, rfl⟩

/-! ## Bounds on the discounts -/

theorem getFreeUnit_bounds (gfud : GetFreeUnitDiscount) (n : Int) (p : ℚ)
    (hBuy : 1 ≤ gfud.Buy) (hn : 0 ≤ n) (hp : 0 ≤ p) :
    ∃ d, gfud.ApplyDiscount n p = some d ∧ 0 ≤ d ∧ d ≤ (n : ℚ) * p := by
  have hne : gfud.Buy ≠ 0 := by omega
  have hdiv : Int.tdiv n gfud.Buy = n / gfud.Buy := Int.tdiv_eq_ediv hn (by omega)
  have h0 : 0 ≤ n / gfud.Buy := Int.ediv_nonneg hn (by omega)
  have h1 : n / gfud.Buy ≤ n := Int.ediv_le_self _ hn
  refine ⟨((n / gfud.Buy : Int) : ℚ) * p, ?_, ?_, ?_⟩
  · simp [GetFreeUnitDiscount.ApplyDiscount, hne, hdiv]
  · exact mul_nonneg (by exact_mod_cast h0) hp
  · exact mul_le_mul_of_nonneg_right (by exact_mod_cast h1) hp

theorem lessPrice_bounds (lpd : LessPriceDiscount) (n : Int) (p : ℚ)
    (hn : 0 ≤ n) (hPrice : 0 ≤ lpd.Price) (hle : lpd.Price ≤ p) :
    ∃ d, lpd.ApplyDiscount n p = some d ∧ 0 ≤ d ∧ d ≤ (n : ℚ) * p := by
  have hn2 : (0 : ℚ) ≤ (n : ℚ) := by exact_mod_cast hn
  by_cases h : lpd.Buy ≤ n
  · refine ⟨(p - lpd.Price) * (n : ℚ), by simp [LessPriceDiscount.ApplyDiscount, h], ?_, ?_⟩
    · exact mul_nonneg (by linarith) hn2
    · have : (p - lpd.Price) * (n : ℚ) ≤ p * (n : ℚ) :=
        mul_le_mul_of_nonneg_right (by linarith) hn2
      linarith
  · refine ⟨0, by simp [LessPriceDiscount.ApplyDiscount, h], le_refl _, ?_⟩
    exact mul_nonneg hn2 (by linarith)

/-- C11: both strategies return a discount `d` with `0 <= d <= n * p` for every
count `n >= 0` and unit price `p >= 0`: the free-unit discount for `Buy >= 1`
and `Free >= 0`, the lower-price discount for a threshold `Buy >= 1` and a
reduced price with `0 <= Price <= p`. -/
theorem ApplyDiscount_bounds (n : Int) (p : ℚ) (hn : 0 ≤ n) (hp : 0 ≤ p) :
    (∀ gfud : GetFreeUnitDiscount, 1 ≤ gfud.Buy → 0 ≤ gfud.Free →
        ∃ d, gfud.ApplyDiscount n p = some d ∧ 0 ≤ d ∧ d ≤ (n : ℚ) * p) ∧
      (∀ lpd : LessPriceDiscount, 1 ≤ lpd.Buy → 0 ≤ lpd.Price → lpd.Price ≤ p →
        ∃ d, lpd.ApplyDiscount n p = some d ∧ 0 ≤ d ∧ d ≤ (n : ℚ) * p) :=
  ⟨fun gfud hBuy _ => getFreeUnit_bounds gfud n p hBuy hn hp,
    fun lpd _ hPrice hle => lessPrice_bounds lpd n p hn hPrice hle⟩

/-- C11, at `5` units of price `20` with `GetFreeUnitDiscount{2, 1}` and with
`LessPriceDiscount{3, 19}`. -/
theorem ApplyDiscount_bounds_witness :
    (∃ d, (⟨2, 1⟩ : GetFreeUnitDiscount).ApplyDiscount 5 20 = some d ∧ 0 ≤ d ∧
        d ≤ ((5 : Int) : ℚ) * 20) ∧
      (∃ d, (⟨3, 19⟩ : LessPriceDiscount).ApplyDiscount 5 20 = some d ∧ 0 ≤ d ∧
        d ≤ ((5 : Int) : ℚ) * 20) :=
  ⟨(ApplyDiscount_bounds 5 20 (by decide) (by norm_num)).1 ⟨2, 1⟩ (by decide) (by decide),
    (ApplyDiscount_bounds 5 20 (by decide) (by norm_num)).2 ⟨3, 19⟩ (by decide) (by norm_num)
      (by norm_num)⟩

/-! ## `GetTotal` leaves the session as it is -/

theorem totalLoopSt_eq (c : Checkout) (visit : List (Sigma fun _ : String => Int)) (t : ℚ) :
    c.totalLoopSt t visit = (c, c.totalLoop t visit) := by
  induction visit generalizing t with
  | nil => rfl
  | cons e visit ih =>
    rw [Checkout.totalLoopSt, Checkout.totalLoop, Checkout.totalStepSt]
    cases h : c.totalStep t e.1 e.2 with
    | none => rfl
    | some t2 => exact ih t2

/-- C12, as stated, fails in `float64`: on the session with one scan of each of
`A`, `B`, `C` (prices `0.1`, `0.2`, `0.3`) a first call of `GetTotal` that visits
the counts in the order `A`, `B`, `C` returns `0.6000000000000001`, and a second
call with no scan in between that visits them in the order `B`, `C`, `A` returns
`0.6`. -/
theorem GetTotal_twice_float_counterexample :
    [(⟨"A", 1⟩ : Sigma fun _ : String => Int), ⟨"B", 1⟩, ⟨"C", 1⟩].Perm
        driftSession.products.entries ∧
      [(⟨"B", 1⟩ : Sigma fun _ : String => Int), ⟨"C", 1⟩, ⟨"A", 1⟩].Perm
        (driftSession.GetTotalCall [⟨"A", 1⟩, ⟨"B", 1⟩, ⟨"C", 1⟩]).1.products.entries ∧
      driftSession.GetTotalF64Visiting [⟨"A", 1⟩, ⟨"B", 1⟩, ⟨"C", 1⟩] =
        some (5404319552844596 / 9007199254740992) ∧
      (driftSession.GetTotalCall [⟨"A", 1⟩, ⟨"B", 1⟩, ⟨"C", 1⟩]).1.GetTotalF64Visiting
          [⟨"B", 1⟩, ⟨"C", 1⟩, ⟨"A", 1⟩] = some (5404319552844595 / 9007199254740992) ∧
      driftSession.GetTotalF64Visiting [⟨"A", 1⟩, ⟨"B", 1⟩, ⟨"C", 1⟩] ≠
        (driftSession.GetTotalCall [⟨"A", 1⟩, ⟨"B", 1⟩, ⟨"C", 1⟩]).1.GetTotalF64Visiting
          [⟨"B", 1⟩, ⟨"C", 1⟩, ⟨"A", 1⟩] := by
  decide!

/-- C12, amended: a call of `GetTotal` leaves the session as it was, its counts
map and the two maps of its catalog included, no statement of `GetTotal`,
`getPrice` or `ApplyDiscount` assigning to them. A second call with no scan in
between returns the same value in exact arithmetic, in whatever orders the two
calls visit the counts, and in `float64` when it visits the counts in the order
of the first call; a call after further scans returns the total of the counts as
they are then. -/
theorem GetTotal_does_not_mutate (c : Checkout) (visit : List (Sigma fun _ : String => Int)) :
    ((c.GetTotalCall visit).1 = c ∧
        (c.GetTotalCall visit).1.products = c.products ∧
        (c.GetTotalCall visit).1.pricingRules.products = c.pricingRules.products ∧
        (c.GetTotalCall visit).1.pricingRules.discounts = c.pricingRules.discounts) ∧
      (c.GetTotalCall visit).2 = c.GetTotalVisiting visit ∧
      (∀ visit2 : List (Sigma fun _ : String => Int),
        visit.Perm c.products.entries →
        visit2.Perm (c.GetTotalCall visit).1.products.entries →
          ((c.GetTotalCall visit).1.GetTotalCall visit2).2 = (c.GetTotalCall visit).2) ∧
      (∀ (codes : List String) (visit3 : List (Sigma fun _ : String => Int)),
        visit3.Perm (c.scanAll codes).products.entries →
          (((c.GetTotalCall visit).1.scanAll codes).GetTotalCall visit3).2 =
            (c.scanAll codes).specTotal) ∧
      (c.GetTotalCall visit).1.GetTotalF64Visiting visit = c.GetTotalF64Visiting visit := by
  have h : c.GetTotalCall visit = (c, c.GetTotalVisiting visit) := totalLoopSt_eq c visit 0
  refine ⟨⟨by rw [h], by rw [h], by rw [h], by rw [h]⟩, by rw [h], ?_, ?_, by rw [h]⟩
  · intro visit2 h1 h2
    rw [h] at h2 ⊢
    have h3 : c.GetTotalCall visit2 = (c, c.GetTotalVisiting visit2) := totalLoopSt_eq c visit2 0
    simp only [h3]
    rw [getTotalVisiting_eq c visit2 h2, getTotalVisiting_eq c visit h1]
  · intro codes visit3 h3
    rw [h]
    have h4 : (c.scanAll codes).GetTotalCall visit3 =
        (c.scanAll codes, (c.scanAll codes).GetTotalVisiting visit3) :=
      totalLoopSt_eq _ visit3 0
    simp only [h4]
    exact getTotalVisiting_eq _ visit3 h3

/-- C12 amended, on the sample catalog after the scans `VOUCHER`, `MUG`: a first call
visiting `MUG` first, a second call visiting `VOUCHER` first. -/
theorem GetTotal_does_not_mutate_witness :
    ((((NewCheckout (createPricingRules items)).scanAll ["VOUCHER", "MUG"]).GetTotalCall
        [⟨"MUG", 1⟩, ⟨"VOUCHER", 1⟩]).1.GetTotalCall [⟨"VOUCHER", 1⟩, ⟨"MUG", 1⟩]).2 =
      (((NewCheckout (createPricingRules items)).scanAll ["VOUCHER", "MUG"]).GetTotalCall
        [⟨"MUG", 1⟩, ⟨"VOUCHER", 1⟩]).2 :=
  (GetTotal_does_not_mutate ((NewCheckout (createPricingRules items)).scanAll ["VOUCHER", "MUG"])
    [⟨"MUG", 1⟩, ⟨"VOUCHER", 1⟩]).2.2.1 [⟨"VOUCHER", 1⟩, ⟨"MUG", 1⟩] (by decide) (by decide)

/-! ## Invariants of the catalog -/

/-- `Add`, whether it succeeds or stops at a repeated code, leaves the discounts
and every product already stored as they are. -/
theorem add_preserves (l : List Item) (pr : PricingRules) :
    (pr.Add l).1.discounts = pr.discounts ∧
      (∀ k item, pr.products.lookup k = some item →
        (pr.Add l).1.products.lookup k = some item) := by
  induction l generalizing pr with
  | nil => exact ⟨rfl, fun _ _ h => h⟩
  | cons p ps ih =>
    by_cases hp : p.Code ∈ pr.products
    · rw [add_cons_of_mem pr p ps hp]
      exact ⟨rfl, fun _ _ h => h⟩
    · rw [add_cons_of_not_mem pr p ps hp]
      obtain ⟨h1, h2⟩ := ih { pr with products := pr.products.insert p.Code p }
      refine ⟨h1, fun k item hk => h2 k item ?_⟩
      have hne : k ≠ p.Code := by
        rintro rfl
        exact hp (AList.lookup_isSome.mp (by rw [hk]; rfl))
      show (pr.products.insert p.Code p).lookup k = some item
      rw [AList.lookup_insert_ne hne]
      exact hk

/-- `RegisterDiscount`, whether it succeeds or fails, leaves the products and
every discount already stored as they are; a key it adds is a product key. -/
theorem registerDiscount_preserves (pr : PricingRules) (code : String) (d : DiscountApplier) :
    (pr.RegisterDiscount code d).1.products = pr.products ∧
      (∀ k d0, pr.discounts.lookup k = some d0 →
        (pr.RegisterDiscount code d).1.discounts.lookup k = some d0) ∧
      (∀ k, k ∈ (pr.RegisterDiscount code d).1.discounts →
        k ∈ pr.discounts ∨ k ∈ pr.products) := by
  by_cases h : code ∈ pr.products
  · by_cases hd : code ∈ pr.discounts
    · rw [registerDiscount_of_dup pr code d h hd]
      exact ⟨rfl, fun _ _ h => h, fun _ hk => Or.inl hk⟩
    · rw [registerDiscount_of_new pr code d h hd]
      refine ⟨rfl, fun k d0 hk => ?_, fun k hk => ?_⟩
      · have hne : k ≠ code := by
          rintro rfl
          exact hd (AList.lookup_isSome.mp (by rw [hk]; rfl))
        show (pr.discounts.insert code d).lookup k = some d0
        rw [AList.lookup_insert_ne hne]
        exact hk
      · rcases (AList.mem_insert _).mp hk with rfl | hk
        · exact Or.inr h
        · exact Or.inl hk
  · rw [registerDiscount_of_not_mem pr code d h]
    exact ⟨rfl, fun _ _ h => h, fun _ hk => Or.inl hk⟩

theorem mem_of_lookup_eq_some {V : Type} (m : GoMap V) (k : String) (v : V)
    (h : m.lookup k = some v) : k ∈ m :=
  AList.lookup_isSome.mp (by rw [h]; rfl)

/-- One call keeps the keys of the discounts among the keys of the products. -/
theorem call_keeps_subset (pr : PricingRules) (call : CatalogCall)
    (hinv : ∀ k, k ∈ pr.discounts → k ∈ pr.products) :
    ∀ k, k ∈ (pr.call call).discounts → k ∈ (pr.call call).products := by
  intro k hk
  cases call with
  | add l =>
    obtain ⟨h1, h2⟩ := add_preserves l pr
    simp only [PricingRules.call] at hk ⊢
    rw [h1] at hk
    obtain ⟨item, hitem⟩ := Option.isSome_iff_exists.mp (AList.lookup_isSome.mpr (hinv k hk))
    exact mem_of_lookup_eq_some _ _ _ (h2 k item hitem)
  | registerDiscount code d =>
    obtain ⟨h1, _, h3⟩ := registerDiscount_preserves pr code d
    simp only [PricingRules.call] at hk ⊢
    rw [h1]
    rcases h3 k hk with h | h
    · exact hinv k h
    · exact h

theorem foldl_call_keeps_subset (calls : List CatalogCall) (pr : PricingRules)
    (hinv : ∀ k, k ∈ pr.discounts → k ∈ pr.products) :
    ∀ k, k ∈ (calls.foldl PricingRules.call pr).discounts →
      k ∈ (calls.foldl PricingRules.call pr).products := by
  induction calls generalizing pr with
  | nil => exact hinv
  | cons call calls ih => exact ih _ (call_keeps_subset pr call hinv)

/-- C16: starting from `NewPricingRules`, after any sequence of `Add` and
`RegisterDiscount` calls, each succeeding or failing, every key of the discounts
map is a key of the products map. -/
theorem discounts_subset_products (calls : List CatalogCall) (k : String)
    (hk : k ∈ (buildCatalog calls).discounts) : k ∈ (buildCatalog calls).products :=
  foldl_call_keeps_subset calls NewPricingRules
    (fun k h => absurd h (AList.not_mem_empty k)) k hk

/-- C16, after a failing registration for `FAKE`, `Add` of the sample items, a
registration for `TSHIRT` and a failing second one. -/
theorem discounts_subset_products_witness :
    "TSHIRT" ∈ (buildCatalog [.registerDiscount "FAKE" (.getFreeUnit ⟨2, 1⟩), .add items,
      .registerDiscount "TSHIRT" (.lessPrice ⟨3, 19⟩),
      .registerDiscount "TSHIRT" (.getFreeUnit ⟨2, 1⟩)]).products :=
  discounts_subset_products _ "TSHIRT" (by decide)

/-- C18: the catalog is append-only. Whatever a call of `Add` or
`RegisterDiscount` returns, every product code present before it is still mapped
to the same item, so an `Add` of an item whose code exists never overwrites the
stored name or price, and every discount code present before it is still mapped
to the same strategy. -/
theorem catalog_append_only (pr : PricingRules) (call : CatalogCall) :
    (∀ k item, pr.products.lookup k = some item →
        (pr.call call).products.lookup k = some item) ∧
      (∀ k d, pr.discounts.lookup k = some d →
        (pr.call call).discounts.lookup k = some d) := by
  cases call with
  | add l =>
    obtain ⟨h1, h2⟩ := add_preserves l pr
    refine ⟨h2, fun k d hk => ?_⟩
    simp only [PricingRules.call]
    rw [h1]
    exact hk
  | registerDiscount code d =>
    obtain ⟨h1, h2, _⟩ := registerDiscount_preserves pr code d
    refine ⟨fun k item hk => ?_, h2⟩
    simp only [PricingRules.call]
    rw [h1]
    exact hk

/-- C18, at an `Add` of `MUG` and of a second `VOUCHER` with another name and
price on the sample catalog: the stored `VOUCHER` stays. -/
theorem catalog_append_only_witness :
    ((createPricingRules items).call
        (.add [⟨"MUG2", "Mug", 1⟩, ⟨"VOUCHER", "Other", 9⟩])).products.lookup "VOUCHER" =
      some ⟨"VOUCHER", "Voucher", 5⟩ :=
  (catalog_append_only (createPricingRules items)
    (.add [⟨"MUG2", "Mug", 1⟩, ⟨"VOUCHER", "Other", 9⟩])).1 "VOUCHER"
    ⟨"VOUCHER", "Voucher", 5⟩ rfl

/-! ## Invariants of the session -/

/-- The scans of `k` that succeed are its occurrences, for a code of the
inventory; none succeeds otherwise. -/
theorem successfulScans_eq (codes : List String) (c : Checkout) (k : String) :
    c.successfulScans k codes = if k ∈ c.pricingRules.products then codes.count k else 0 := by
  induction codes generalizing c with
  | nil => simp [Checkout.successfulScans]
  | cons x xs ih =>
    rw [Checkout.successfulScans, ih, scan_pricingRules]
    by_cases hxk : x = k
    · subst hxk
      by_cases hx : x ∈ c.pricingRules.products
      · rw [scan_of_mem c x hx]
        simp [hx, Nat.add_comm]
      · rw [scan_of_not_mem c x hx]
        simp [hx]
    · have hc : List.count k (x :: xs) = List.count k xs := by
        simp [List.count_cons, hxk]
      rw [hc]
      simp [hxk]

theorem lookup_scanAll_new (pr : PricingRules) (codes : List String) (k : String) :
    ((NewCheckout pr).scanAll codes).products.lookup k =
      if k ∈ pr.products ∧ 0 < codes.count k then some (codes.count k : Int) else none := by
  rw [scanAll_lookup]
  have h0 : (NewCheckout pr).count k = 0 := rfl
  rw [h0, zero_add]
  rfl

/-- C17: starting from `NewCheckout` on any catalog, after any sequence of scans,
each succeeding or failing, every key of the counts map is a key of the products
map of the catalog, and the count stored for it is a positive integer, the
number of successful scans of that code. -/
theorem session_invariant (pr : PricingRules) (codes : List String) (k : String) (n : Int)
    (hk : ((NewCheckout pr).scanAll codes).products.lookup k = some n) :
    k ∈ ((NewCheckout pr).scanAll codes).pricingRules.products ∧ k ∈ pr.products ∧ 0 < n ∧
      n = ((NewCheckout pr).successfulScans k codes : Int) ∧
      (∀ k2, k2 ∈ ((NewCheckout pr).scanAll codes).products → k2 ∈ pr.products) := by
  rw [lookup_scanAll_new] at hk
  have hall : ∀ k2, k2 ∈ ((NewCheckout pr).scanAll codes).products → k2 ∈ pr.products :=
    fun k2 h2 => ((mem_scanAll_new pr codes k2).mp h2).1
  by_cases h : k ∈ pr.products ∧ 0 < codes.count k
  · rw [if_pos h, Option.some.injEq] at hk
    have hs : (NewCheckout pr).successfulScans k codes = codes.count k := by
      rw [successfulScans_eq]
      exact if_pos h.1
    refine ⟨?_, h.1, ?_, ?_, hall⟩
    · rw [scanAll_pricingRules]; exact h.1
    · rw [← hk]; exact_mod_cast h.2
    · rw [hs, hk]
  · rw [if_neg h] at hk
    exact absurd hk (by simp)

/-- C17, on the sample catalog after `VOUCHER`, `FAKE`, `VOUCHER`, `MUG`: the
count of `VOUCHER` is `2`, the number of its successful scans. -/
theorem session_invariant_witness :
    (2 : Int) = ((NewCheckout (createPricingRules items)).successfulScans "VOUCHER"
      ["VOUCHER", "FAKE", "VOUCHER", "MUG"] : Int) :=
  (session_invariant (createPricingRules items) ["VOUCHER", "FAKE", "VOUCHER", "MUG"]
    "VOUCHER" 2 (by decide)).2.2.2.1

/-! ## The total depends on the counts only -/

theorem specTotal_congr (c1 c2 : Checkout) (hpr : c1.pricingRules = c2.pricingRules)
    (hl : ∀ k, c1.products.lookup k = c2.products.lookup k) :
    c1.specTotal = c2.specTotal := by
  have hcount : ∀ k, c1.count k = c2.count k := fun k => by simp [Checkout.count, hl]
  have hprice : ∀ k, c1.getPrice k = c2.getPrice k := fun k => by simp [Checkout.getPrice, hpr]
  have hdisc : ∀ k, c1.discountOf k = c2.discountOf k := fun k => by
    simp [Checkout.discountOf, hpr, hcount, hprice]
  have hkeys : ∀ k, k ∈ c1.products.keys ↔ k ∈ c2.products.keys := fun k => by
    rw [← AList.mem_keys, ← AList.mem_keys, ← AList.lookup_isSome, ← AList.lookup_isSome, hl]
  have hfin : c1.products.keys.toFinset = c2.products.keys.toFinset := by
    ext k
    simp [hkeys]
  unfold Checkout.specTotal
  simp only [hfin, hcount, hprice, hdisc, hkeys]

/-- C19: the total depends only on the multiset of the scanned codes. Two
sequences of codes that are permutations of each other, unknown codes included,
scanned into fresh sessions on one catalog give the same counts map (the same
count for every code, the same entries up to order) and the same total, in
whatever orders the two totals visit the counts. -/
theorem total_of_permuted_scans (pr : PricingRules) (l1 l2 : List String)
    (hperm : l1.Perm l2) :
    (∀ k, ((NewCheckout pr).scanAll l1).products.lookup k =
        ((NewCheckout pr).scanAll l2).products.lookup k) ∧
      ((NewCheckout pr).scanAll l1).products.entries.Perm
        ((NewCheckout pr).scanAll l2).products.entries ∧
      ((NewCheckout pr).scanAll l1).GetTotal = ((NewCheckout pr).scanAll l2).GetTotal ∧
      (∀ visit1 visit2 : List (Sigma fun _ : String => Int),
        visit1.Perm ((NewCheckout pr).scanAll l1).products.entries →
        visit2.Perm ((NewCheckout pr).scanAll l2).products.entries →
          ((NewCheckout pr).scanAll l1).GetTotalVisiting visit1 =
            ((NewCheckout pr).scanAll l2).GetTotalVisiting visit2) := by
  have hl : ∀ k, ((NewCheckout pr).scanAll l1).products.lookup k =
      ((NewCheckout pr).scanAll l2).products.lookup k := fun k => by
    rw [lookup_scanAll_new, lookup_scanAll_new, hperm.count_eq]
  have hpr : ((NewCheckout pr).scanAll l1).pricingRules =
      ((NewCheckout pr).scanAll l2).pricingRules := by
    rw [scanAll_pricingRules, scanAll_pricingRules]
  have hspec := specTotal_congr _ _ hpr hl
  refine ⟨hl, ?_, ?_, ?_⟩
  · apply List.lookup_ext (AList.nodupKeys _) (AList.nodupKeys _)
    intro x y
    have := hl x
    simp only [AList.lookup] at this
    rw [this]
  · rw [getTotal_eq, getTotal_eq, hspec]
  · intro visit1 visit2 h1 h2
    rw [getTotalVisiting_eq _ visit1 h1, getTotalVisiting_eq _ visit2 h2, hspec]

/-- C19, on the sample catalog at `VOUCHER, FAKE, MUG` and `MUG, VOUCHER, FAKE`. -/
theorem total_of_permuted_scans_witness :
    ((NewCheckout (createPricingRules items)).scanAll ["VOUCHER", "FAKE", "MUG"]).GetTotal =
      ((NewCheckout (createPricingRules items)).scanAll ["MUG", "VOUCHER", "FAKE"]).GetTotal :=
  (total_of_permuted_scans (createPricingRules items) ["VOUCHER", "FAKE", "MUG"]
    ["MUG", "VOUCHER", "FAKE"] (by decide)).2.2.1

/-! ## Sessions with a single code -/

theorem specTotal_new (pr : PricingRules) : (NewCheckout pr).specTotal = some 0 := by
  simp [Checkout.specTotal, NewCheckout]

/-- The total of the specification for a session that holds `n` units of one
code: the gross amount less the discount of the code. -/
theorem specTotal_single (pr : PricingRules) (code : String) (n : ℕ)
    (hcode : code ∈ pr.products) (hn : 0 < n) :
    ((NewCheckout pr).scanAll (List.replicate n code)).specTotal =
      (pr.discount code (n : Int) ((NewCheckout pr).getPrice code)).map
        (fun d => (n : ℚ) * (NewCheckout pr).getPrice code - d) := by
  have hl : ∀ k, ((NewCheckout pr).scanAll (List.replicate n code)).products.lookup k =
      (({ pricingRules := pr, products := AList.singleton code (n : Int) } :
        Checkout)).products.lookup k := by
    intro k
    rw [lookup_scanAll_new, List.count_replicate]
    by_cases hk : k = code
    · subst hk
      simp [hcode, hn, AList.lookup, AList.singleton]
    · have hk2 : ¬ (code == k) = true := by simpa using Ne.symm hk
      simp [hk, hk2, AList.lookup, AList.singleton, Ne.symm hk]
  have hpr : ((NewCheckout pr).scanAll (List.replicate n code)).pricingRules =
      (({ pricingRules := pr, products := AList.singleton code (n : Int) } :
        Checkout)).pricingRules := by
    rw [scanAll_pricingRules]; rfl
  rw [specTotal_congr _ _ hpr hl]
  have hcount : (({ pricingRules := pr, products := AList.singleton code (n : Int) } :
      Checkout)).count code = (n : Int) := by
    simp [Checkout.count, AList.lookup, AList.singleton]
  simp only [Checkout.specTotal, AList.keys_singleton, List.mem_singleton, forall_eq,
    List.toFinset_cons, List.toFinset_nil, insert_emptyc_eq, Finset.sum_singleton,
    Checkout.discountOf, hcount]
  have hgp : (({ pricingRules := pr, products := AList.singleton code (n : Int) } :
      Checkout)).getPrice code = (NewCheckout pr).getPrice code := rfl
  rw [hgp]
  cases pr.discount code (n : Int) ((NewCheckout pr).getPrice code) with
  | none => simp
  | some d => simp

theorem getPrice_of_lookup (pr : PricingRules) (code : String) (item : Item)
    (h : pr.products.lookup code = some item) : (NewCheckout pr).getPrice code = item.Price := by
  simp [Checkout.getPrice, NewCheckout, h]

theorem getFreeUnit_apply_floor (gfud : GetFreeUnitDiscount) (n : Int) (p : ℚ)
    (hBuy : 1 ≤ gfud.Buy) (hn : 0 ≤ n) :
    gfud.ApplyDiscount n p = some ((⌊(n : ℚ) / (gfud.Buy : ℚ)⌋ : ℚ) * p) := by
  have hne : gfud.Buy ≠ 0 := by omega
  have hdiv : Int.tdiv n gfud.Buy = n / gfud.Buy := Int.tdiv_eq_ediv hn (by omega)
  have hfloor : ⌊(n : ℚ) / (gfud.Buy : ℚ)⌋ = n / gfud.Buy := by
    obtain ⟨b, hb⟩ := Int.eq_ofNat_of_zero_le (show 0 ≤ gfud.Buy by omega)
    rw [hb]
    exact_mod_cast Rat.floor_intCast_div_natCast n b
  simp [GetFreeUnitDiscount.ApplyDiscount, hne, hdiv, hfloor]

/-- C14: for a product of unit price `p` with `GetFreeUnitDiscount{b, f}`
registered, `b >= 1`, a fresh session in which only that product is scanned,
`n` times, totals `(n - floor(n / b)) * p`. -/
theorem free_units_total (pr : PricingRules) (code : String) (item : Item) (b f : Int)
    (n : ℕ) (hitem : pr.products.lookup code = some item)
    (hd : pr.discounts.lookup code = some (.getFreeUnit ⟨b, f⟩)) (hb : 1 ≤ b)
    (visit : List (Sigma fun _ : String => Int))
    (hvisit : visit.Perm
      ((NewCheckout pr).scanAll (List.replicate n code)).products.entries) :
    ((NewCheckout pr).scanAll (List.replicate n code)).GetTotalVisiting visit =
        some (((n : ℚ) - (⌊(n : ℚ) / (b : ℚ)⌋ : ℚ)) * item.Price) ∧
      ((NewCheckout pr).scanAll (List.replicate n code)).GetTotal =
        some (((n : ℚ) - (⌊(n : ℚ) / (b : ℚ)⌋ : ℚ)) * item.Price) := by
  have hcode : code ∈ pr.products := mem_of_lookup_eq_some _ _ _ hitem
  have hspec : ((NewCheckout pr).scanAll (List.replicate n code)).specTotal =
      some (((n : ℚ) - (⌊(n : ℚ) / (b : ℚ)⌋ : ℚ)) * item.Price) := by
    rcases Nat.eq_zero_or_pos n with h0 | hpos
    · subst h0
      simp [Checkout.scanAll, specTotal_new]
    · rw [specTotal_single pr code n hcode hpos, getPrice_of_lookup pr code item hitem,
        PricingRules.discount, hd]
      simp only [DiscountApplier.ApplyDiscount]
      rw [getFreeUnit_apply_floor ⟨b, f⟩ (n : Int) item.Price hb (Int.natCast_nonneg n)]
      simp only [Option.map_some', Int.cast_natCast, Option.some.injEq]
      ring
  exact ⟨by rw [getTotalVisiting_eq _ visit hvisit, hspec], by rw [getTotal_eq, hspec]⟩

/-- C14, at three scans of `VOUCHER` on the sample catalog. -/
theorem free_units_total_witness :
    ((NewCheckout (createPricingRules items)).scanAll (List.replicate 3 "VOUCHER")).GetTotal =
      some ((((3 : ℕ) : ℚ) - (⌊((3 : ℕ) : ℚ) / ((2 : Int) : ℚ)⌋ : ℚ)) *
        (⟨"VOUCHER", "Voucher", 5⟩ : Item).Price) :=
  (free_units_total (createPricingRules items) "VOUCHER" ⟨"VOUCHER", "Voucher", 5⟩ 2 1 3 rfl rfl
    (by decide) [⟨"VOUCHER", 3⟩] (by decide)).2

/-- C15: for a product of unit price `p` with `LessPriceDiscount{t, q}`
registered, a fresh session in which only that product is scanned, `n` times,
totals `n * p` if `n < t` and `n * q` if `n >= t`. -/
theorem bulk_price_total (pr : PricingRules) (code : String) (item : Item) (t : Int) (q : ℚ)
    (n : ℕ) (hitem : pr.products.lookup code = some item)
    (hd : pr.discounts.lookup code = some (.lessPrice ⟨t, q⟩))
    (visit : List (Sigma fun _ : String => Int))
    (hvisit : visit.Perm
      ((NewCheckout pr).scanAll (List.replicate n code)).products.entries) :
    ((NewCheckout pr).scanAll (List.replicate n code)).GetTotalVisiting visit =
        some (if (n : Int) < t then (n : ℚ) * item.Price else (n : ℚ) * q) ∧
      ((NewCheckout pr).scanAll (List.replicate n code)).GetTotal =
        some (if (n : Int) < t then (n : ℚ) * item.Price else (n : ℚ) * q) := by
  have hcode : code ∈ pr.products := mem_of_lookup_eq_some _ _ _ hitem
  have hspec : ((NewCheckout pr).scanAll (List.replicate n code)).specTotal =
      some (if (n : Int) < t then (n : ℚ) * item.Price else (n : ℚ) * q) := by
    rcases Nat.eq_zero_or_pos n with h0 | hpos
    · subst h0
      simp [Checkout.scanAll, specTotal_new]
    · rw [specTotal_single pr code n hcode hpos, getPrice_of_lookup pr code item hitem,
        PricingRules.discount, hd]
      simp only [DiscountApplier.ApplyDiscount, LessPriceDiscount.ApplyDiscount,
        Option.map_some', Int.cast_natCast, Option.some.injEq, ge_iff_le]
      by_cases h : (n : Int) < t
      · have h2 : ¬ t ≤ (n : Int) := by omega
        simp [h, h2]
      · have h2 : t ≤ (n : Int) := by omega
        simp only [h, h2, if_true, if_false]
        ring
  exact ⟨by rw [getTotalVisiting_eq _ visit hvisit, hspec], by rw [getTotal_eq, hspec]⟩

/-- C15, at four scans of `TSHIRT` on the sample catalog. -/
theorem bulk_price_total_witness :
    ((NewCheckout (createPricingRules items)).scanAll (List.replicate 4 "TSHIRT")).GetTotal =
      some (if ((4 : ℕ) : Int) < 3 then ((4 : ℕ) : ℚ) * (⟨"TSHIRT", "T-Shirt", 20⟩ : Item).Price
        else ((4 : ℕ) : ℚ) * 19) :=
  (bulk_price_total (createPricingRules items) "TSHIRT" ⟨"TSHIRT", "T-Shirt", 20⟩ 3 19 4 rfl rfl
    [⟨"TSHIRT", 4⟩] (by decide)).2

/-! ## Code independence -/

/-- The total of the isolated session of a counted code of a reachable session:
the gross amount of the code less its discount. -/
theorem isolated_total (pr : PricingRules) (codes : List String) (code : String)
    (hmem : code ∈ ((NewCheckout pr).scanAll codes).products.keys) :
    (((NewCheckout pr).scanAll codes).isolated code).GetTotal =
      (((NewCheckout pr).scanAll codes).discountOf code).map
        (fun d => (((NewCheckout pr).scanAll codes).count code : ℚ) *
          ((NewCheckout pr).scanAll codes).getPrice code - d) := by
  obtain ⟨hcode, hpos⟩ := (mem_scanAll_new pr codes code).mp (AList.mem_keys.mpr hmem)
  have hcount := count_scanAll_new pr codes code hcode
  have hpr : ((NewCheckout pr).scanAll codes).pricingRules = pr := by
    rw [scanAll_pricingRules]; rfl
  have hiso : ((NewCheckout pr).scanAll codes).isolated code =
      (NewCheckout pr).scanAll (List.replicate (codes.count code) code) := by
    rw [Checkout.isolated, hpr, hcount, Int.toNat_natCast]
  rw [getTotal_eq, hiso, specTotal_single pr code _ hcode hpos, Checkout.discountOf, hpr,
    hcount, getPrice_scanAll_new]
  simp

/-- C13, as stated, fails in `float64`: on the session with one scan of each of
`A`, `B`, `C` (prices `0.1`, `0.2`, `0.3`) the isolated sessions total `0.1`,
`0.2` and `0.3`, and `GetTotal` is `0.6000000000000001` when it visits the
counts in the order `A`, `B`, `C` and `0.6` in the order `B`, `C`, `A`: no one
value, so no sum of the isolated totals, is the total in every visiting order. -/
theorem code_independence_float_counterexample :
    ((driftSession.isolated "A").GetTotalF64Visiting [⟨"A", 1⟩] =
        some (3602879701896397 / 36028797018963968) ∧
      (driftSession.isolated "B").GetTotalF64Visiting [⟨"B", 1⟩] =
        some (3602879701896397 / 18014398509481984) ∧
      (driftSession.isolated "C").GetTotalF64Visiting [⟨"C", 1⟩] =
        some (5404319552844595 / 18014398509481984)) ∧
      ¬ ∃ s : ℚ, ∀ visit : List (Sigma fun _ : String => Int),
        visit.Perm driftSession.products.entries →
          driftSession.GetTotalF64Visiting visit = some s := by
  refine ⟨by decide!, ?_⟩
  rintro ⟨s, hs⟩
  have h1 := hs _ drift_perm_ABC
  have h2 := hs _ drift_perm_BCA
  rw [drift_total_ABC] at h1
  rw [drift_total_BCA] at h2
  exact drift_totals_ne (h1.trans h2.symm)

/-- C13, amended: for every catalog and every reachable session, `GetTotal` is in
exact arithmetic the sum, over the distinct codes of the counts, of the
`GetTotal` of a fresh session on the same catalog in which only that code is
scanned, `counts[code]` times; it is undefined exactly when one of these is. The
discount of a code is the same in every session on the catalog that holds the
same count for that code, whatever the counts of the other codes. -/
theorem code_independence (pr : PricingRules) (codes : List String) (c : Checkout)
    (visit : List (Sigma fun _ : String => Int))
    (hc : c = (NewCheckout pr).scanAll codes) (hvisit : visit.Perm c.products.entries) :
    c.GetTotalVisiting visit =
        (if ∀ code ∈ c.products.keys, ((c.isolated code).GetTotal).isSome then
          some (∑ code ∈ c.products.keys.toFinset, ((c.isolated code).GetTotal).getD 0)
        else none) ∧
      (∀ (c2 : Checkout) (code : String), c2.pricingRules = c.pricingRules →
        c2.count code = c.count code → c2.discountOf code = c.discountOf code) := by
  refine ⟨?_, ?_⟩
  · have hiso : ∀ code ∈ c.products.keys, (c.isolated code).GetTotal =
        (c.discountOf code).map (fun d => (c.count code : ℚ) * c.getPrice code - d) := by
      intro code hmem
      subst hc
      exact isolated_total pr codes code hmem
    rw [getTotalVisiting_eq c visit hvisit, Checkout.specTotal]
    have hcond : (∀ code ∈ c.products.keys, (c.discountOf code).isSome) ↔
        ∀ code ∈ c.products.keys, ((c.isolated code).GetTotal).isSome := by
      constructor
      · intro h code hmem
        rw [hiso code hmem, Option.isSome_map']
        exact h code hmem
      · intro h code hmem
        have := h code hmem
        rw [hiso code hmem, Option.isSome_map'] at this
        exact this
    by_cases hall : ∀ code ∈ c.products.keys, (c.discountOf code).isSome
    · rw [if_pos hall, if_pos (hcond.mp hall)]
      congr 1
      apply Finset.sum_congr rfl
      intro code hmem
      have hmem2 : code ∈ c.products.keys := List.mem_toFinset.mp hmem
      obtain ⟨d, hd⟩ := Option.isSome_iff_exists.mp (hall code hmem2)
      rw [hiso code hmem2, hd]
      rfl
    · rw [if_neg hall, if_neg (fun h => hall (hcond.mpr h))]
  · intro c2 code hpr hcount
    have hprice : c2.getPrice code = c.getPrice code := by
      simp [Checkout.getPrice, hpr]
    rw [Checkout.discountOf, Checkout.discountOf, hpr, hcount, hprice]

/-- C13 amended, on the sample catalog after `VOUCHER`, `TSHIRT`, `VOUCHER`. -/
theorem code_independence_witness :
    ((NewCheckout (createPricingRules items)).scanAll
        ["VOUCHER", "TSHIRT", "VOUCHER"]).GetTotalVisiting [⟨"TSHIRT", 1⟩, ⟨"VOUCHER", 2⟩] =
      (if ∀ code ∈ ((NewCheckout (createPricingRules items)).scanAll
            ["VOUCHER", "TSHIRT", "VOUCHER"]).products.keys,
          ((((NewCheckout (createPricingRules items)).scanAll
            ["VOUCHER", "TSHIRT", "VOUCHER"]).isolated code).GetTotal).isSome then
        some (∑ code ∈ ((NewCheckout (createPricingRules items)).scanAll
            ["VOUCHER", "TSHIRT", "VOUCHER"]).products.keys.toFinset,
          ((((NewCheckout (createPricingRules items)).scanAll
            ["VOUCHER", "TSHIRT", "VOUCHER"]).isolated code).GetTotal).getD 0)
      else none) :=
  (code_independence (createPricingRules items) ["VOUCHER", "TSHIRT", "VOUCHER"] _
    [⟨"TSHIRT", 1⟩, ⟨"VOUCHER", 2⟩] rfl (by decide)).1

/-! ## Bounds on the total -/

/-- On a catalog with non-negative prices and strategies within their
parameter ranges, the discount of a counted code of a reachable session lies
between `0` and the gross amount of the code, which is not negative. -/
theorem discountOf_bounds (pr : PricingRules) (codes : List String) (code : String)
    (hprice : ∀ k item, pr.products.lookup k = some item → 0 ≤ item.Price)
    (hfree : ∀ k gfud, pr.discounts.lookup k = some (.getFreeUnit gfud) → 1 ≤ gfud.Buy)
    (hless : ∀ k lpd item, pr.discounts.lookup k = some (.lessPrice lpd) →
      pr.products.lookup k = some item → 1 ≤ lpd.Buy ∧ 0 ≤ lpd.Price ∧ lpd.Price ≤ item.Price)
    (hmem : code ∈ ((NewCheckout pr).scanAll codes).products.keys) :
    ∃ d, ((NewCheckout pr).scanAll codes).discountOf code = some d ∧ 0 ≤ d ∧
      d ≤ (((NewCheckout pr).scanAll codes).count code : ℚ) *
        ((NewCheckout pr).scanAll codes).getPrice code := by
  obtain ⟨hcode, _⟩ := (mem_scanAll_new pr codes code).mp (AList.mem_keys.mpr hmem)
  obtain ⟨item, hitem⟩ := Option.isSome_iff_exists.mp (AList.lookup_isSome.mpr hcode)
  have hcount := count_scanAll_new pr codes code hcode
  have hpr : ((NewCheckout pr).scanAll codes).pricingRules = pr := by
    rw [scanAll_pricingRules]; rfl
  have hp : 0 ≤ item.Price := hprice code item hitem
  have hn : (0 : Int) ≤ (codes.count code : Int) := Int.natCast_nonneg _
  rw [Checkout.discountOf, hpr, hcount, getPrice_scanAll_new,
    getPrice_of_lookup pr code item hitem, PricingRules.discount]
  cases hd : pr.discounts.lookup code with
  | none =>
    exact ⟨0, rfl, le_refl _, mul_nonneg (by exact_mod_cast hn) hp⟩
  | some d =>
    cases d with
    | getFreeUnit gfud =>
      exact getFreeUnit_bounds gfud _ item.Price (hfree code gfud hd) hn hp
    | lessPrice lpd =>
      obtain ⟨_, h2, h3⟩ := hless code lpd item hd hitem
      exact lessPrice_bounds lpd _ item.Price hn h2 h3

/-- The sample catalog has non-negative prices and strategies within their
parameter ranges. -/
theorem sample_catalog_ranges :
    (∀ k item, (createPricingRules items).products.lookup k = some item → 0 ≤ item.Price) ∧
      (∀ k gfud, (createPricingRules items).discounts.lookup k = some (.getFreeUnit gfud) →
        1 ≤ gfud.Buy) ∧
      (∀ k lpd item, (createPricingRules items).discounts.lookup k = some (.lessPrice lpd) →
        (createPricingRules items).products.lookup k = some item →
          1 ≤ lpd.Buy ∧ 0 ≤ lpd.Price ∧ lpd.Price ≤ item.Price) := by
  obtain ⟨hP, hN, hD⟩ := createPricingRules_maps items (List.Perm.refl _)
  have hV := hP ⟨"VOUCHER", "Voucher", 5⟩ (by simp [items])
  have hT := hP ⟨"TSHIRT", "T-Shirt", 20⟩ (by simp [items])
  have hM := hP ⟨"MUG", "Coffee Mug", 15 / 2⟩ (by simp [items])
  simp only at hV hT hM
  have hdV : (createPricingRules items).discounts.lookup "VOUCHER" =
      some (.getFreeUnit ⟨2, 1⟩) := by rw [hD]; rfl
  have hdT : (createPricingRules items).discounts.lookup "TSHIRT" =
      some (.lessPrice ⟨3, 19⟩) := by rw [hD]; rfl
  have hdN : ∀ k, k ≠ "TSHIRT" → k ≠ "VOUCHER" →
      (createPricingRules items).discounts.lookup k = none := by
    intro k h1 h2
    rw [hD, AList.lookup_insert_ne h1, AList.lookup_insert_ne h2]
    rfl
  refine ⟨?_, ?_, ?_⟩
  · intro k item h
    by_cases hk : k = "VOUCHER" ∨ k = "TSHIRT" ∨ k = "MUG"
    · rcases hk with rfl | rfl | rfl
      · rw [hV] at h; cases h; norm_num
      · rw [hT] at h; cases h; norm_num
      · rw [hM] at h; cases h; norm_num
    · rw [hN k (by simpa [items] using hk)] at h
      cases h
  · intro k gfud h
    by_cases h1 : k = "TSHIRT"
    · subst h1; rw [hdT] at h; cases h
    · by_cases h2 : k = "VOUCHER"
      · subst h2; rw [hdV] at h; cases h; decide
      · rw [hdN k h1 h2] at h; cases h
  · intro k lpd item h hitem
    by_cases h1 : k = "TSHIRT"
    · subst h1
      rw [hdT] at h; cases h
      rw [hT] at hitem; cases hitem
      exact ⟨by decide, by norm_num, by norm_num⟩
    · by_cases h2 : k = "VOUCHER"
      · subst h2; rw [hdV] at h; cases h
      · rw [hdN k h1 h2] at h; cases h

/-- C20: on a catalog in which all prices are non-negative, every registered
`GetFreeUnitDiscount` has `Buy >= 1` and every registered `LessPriceDiscount`
has `Buy >= 1` and `0 <= Price <=` the unit price of its product, every
reachable session has a total, and `0 <= GetTotal <=` the sum over the codes of
`counts[code] * price(code)`, in whatever order the counts are visited. -/
theorem GetTotal_bounds (pr : PricingRules) (codes : List String) (c : Checkout)
    (visit : List (Sigma fun _ : String => Int))
    (hprice : ∀ k item, pr.products.lookup k = some item → 0 ≤ item.Price)
    (hfree : ∀ k gfud, pr.discounts.lookup k = some (.getFreeUnit gfud) → 1 ≤ gfud.Buy)
    (hless : ∀ k lpd item, pr.discounts.lookup k = some (.lessPrice lpd) →
      pr.products.lookup k = some item → 1 ≤ lpd.Buy ∧ 0 ≤ lpd.Price ∧ lpd.Price ≤ item.Price)
    (hc : c = (NewCheckout pr).scanAll codes) (hvisit : visit.Perm c.products.entries) :
    ∃ total, c.GetTotalVisiting visit = some total ∧ c.GetTotal = some total ∧ 0 ≤ total ∧
      total ≤ ∑ code ∈ c.products.keys.toFinset, (c.count code : ℚ) * c.getPrice code := by
  have hb : ∀ code ∈ c.products.keys, ∃ d, c.discountOf code = some d ∧ 0 ≤ d ∧
      d ≤ (c.count code : ℚ) * c.getPrice code := by
    intro code hmem
    subst hc
    exact discountOf_bounds pr codes code hprice hfree hless hmem
  have hall : ∀ code ∈ c.products.keys, (c.discountOf code).isSome := by
    intro code hmem
    obtain ⟨d, hd, _⟩ := hb code hmem
    rw [hd]; rfl
  refine ⟨∑ code ∈ c.products.keys.toFinset,
    ((c.count code : ℚ) * c.getPrice code - (c.discountOf code).getD 0), ?_, ?_, ?_, ?_⟩
  · rw [getTotalVisiting_eq c visit hvisit, Checkout.specTotal, if_pos hall]
  · rw [getTotal_eq, Checkout.specTotal, if_pos hall]
  · apply Finset.sum_nonneg
    intro code hmem
    obtain ⟨d, hd, _, h2⟩ := hb code (List.mem_toFinset.mp hmem)
    rw [hd, Option.getD_some]
    linarith
  · apply Finset.sum_le_sum
    intro code hmem
    obtain ⟨d, hd, h1, _⟩ := hb code (List.mem_toFinset.mp hmem)
    rw [hd, Option.getD_some]
    linarith

/-- C20, on the sample catalog after `TSHIRT`, `VOUCHER`, `TSHIRT`. -/
theorem GetTotal_bounds_witness :
    ∃ total, ((NewCheckout (createPricingRules items)).scanAll
        ["TSHIRT", "VOUCHER", "TSHIRT"]).GetTotalVisiting [⟨"TSHIRT", 2⟩, ⟨"VOUCHER", 1⟩] =
          some total ∧
      ((NewCheckout (createPricingRules items)).scanAll
        ["TSHIRT", "VOUCHER", "TSHIRT"]).GetTotal = some total ∧ 0 ≤ total ∧
      total ≤ ∑ code ∈ ((NewCheckout (createPricingRules items)).scanAll
          ["TSHIRT", "VOUCHER", "TSHIRT"]).products.keys.toFinset,
        (((NewCheckout (createPricingRules items)).scanAll
          ["TSHIRT", "VOUCHER", "TSHIRT"]).count code : ℚ) *
          ((NewCheckout (createPricingRules items)).scanAll
            ["TSHIRT", "VOUCHER", "TSHIRT"]).getPrice code :=
  GetTotal_bounds (createPricingRules items) ["TSHIRT", "VOUCHER", "TSHIRT"] _
    [⟨"TSHIRT", 2⟩, ⟨"VOUCHER", 1⟩] sample_catalog_ranges.1 sample_catalog_ranges.2.1
    sample_catalog_ranges.2.2 rfl (by decide)

end CheckoutKata
